import Mathlib

/-!
Verification of the TaskManagerAPI task persistence-and-business-rule core
(src/models, src/database/connection.py, src/repositories/task_repository.py,
src/services/task_service.py).

Modelling conventions:
* Instants of time are natural numbers; each service call is modelled with one
  clock instant `now` (the several `datetime.now()` calls inside one operation
  are identified), except `get_statistics`, where the source visibly reads the
  store first and takes a fresh `now` afterwards, so it gets two instants.
* The store (the `"tasks"` collection of `Database.data`) is an
  insertion-ordered association of tasks keyed by their `id`, modelled as a
  `List Task`; Python-dict assignment replaces in place, else appends.
* Pydantic constructing a `Task` from stored data re-runs the `TaskBase`
  validators (`title_must_not_be_empty`, which strips the title, and
  `due_date_must_be_future`).  This read-time validation is modelled by
  `readTask`; a raised `ValidationError` is the `parseError` outcome.
* `Database._save_data` may fail (the file write); every mutating database
  call takes a flag `w` telling whether that write succeeds.  On failure the
  in-memory mutation has already happened and the error propagates
  (`ioError`), exactly as in `Database.insert`/`update`/`delete`.
* `TaskCreate`/`TaskUpdate` arriving at the service have been built by
  pydantic, which strips titles and rejects blank ones; `TaskCreate.Valid`
  and `TaskUpdate.Valid` record that boundary guarantee.  A `TaskUpdate`
  whose `title` field is explicitly `null` crashes the service
  (`None.lower()`) and is outside the model.
-/

/-- Python's `str.lower()` (ASCII case folding), implemented structurally so
that concrete runs evaluate inside the kernel. -/
def String.pyLower (s : String) : String :=
  String.mk (s.data.map Char.toLower)

/-- Python's `str.strip()` (drop surrounding whitespace), implemented
structurally over the character list. -/
def String.pyStrip (s : String) : String :=
  String.mk (((s.data.dropWhile Char.isWhitespace).reverse.dropWhile
    Char.isWhitespace).reverse)

namespace TaskManager

/-- Statuses of a task, from `src/models/enums.py` (`TaskStatus`). -/
inductive TaskStatus where
  | pending
  | in_progress
  | completed
  | cancelled
deriving DecidableEq, Repr

/-- Priorities of a task, from `src/models/enums.py` (`TaskPriority`). -/
inductive TaskPriority where
  | low
  | medium
  | high
  | urgent
deriving DecidableEq, Repr

/-- A task (`src/models/task.py`, class `Task`), generic in the type used for
timestamps: the service-level model instantiates it with `Nat` instants, the
persistence-level model with structured datetimes. -/
structure TaskG (τ : Type) where
  id : String
  title : String
  description : Option String
  priority : TaskPriority
  status : TaskStatus
  due_date : Option τ
  created_at : τ
  updated_at : τ
deriving DecidableEq, Repr

/-- Service-level task: timestamps are abstract instants. -/
abbrev Task := TaskG Nat

/-- The `"tasks"` collection of `Database.data`: an insertion-ordered mapping
from id to task record, keyed by the task's own `id` field. -/
abbrev Store := List Task

/-- Payload of a create request (`src/models/task.py`, class `TaskCreate`). -/
structure TaskCreate where
  title : String
  description : Option String := none
  priority : TaskPriority := .medium
  status : TaskStatus := .pending
  due_date : Option Nat := none
deriving DecidableEq, Repr

/-- What pydantic guarantees about a `TaskCreate` that reached the service:
the `title_must_not_be_empty` validator stripped the title and rejected blank
ones. -/
def TaskCreate.Valid (d : TaskCreate) : Prop :=
  d.title.pyStrip = d.title ∧ d.title ≠ ""

/-- Payload of an update request (`src/models/task.py`, class `TaskUpdate`)
with `model_dump(exclude_unset := ...)` semantics: an outer `none` means the
field was not present in the patch.  For `description` and `due_date` an
explicit `null` (inner `none`) is representable, as the source handles it; an
explicit `null` `title`/`priority`/`status` crashes the source before any
effect and is not modelled. -/
structure TaskUpdate where
  title : Option String := none
  description : Option (Option String) := none
  priority : Option TaskPriority := none
  status : Option TaskStatus := none
  due_date : Option (Option Nat) := none
deriving DecidableEq, Repr

/-- What pydantic guarantees about a patched title. -/
def TaskUpdate.Valid (u : TaskUpdate) : Prop :=
  ∀ x, u.title = some x → x.pyStrip = x ∧ x ≠ ""

/-- Failure outcomes of the layers under verification.
`notFound`/`duplicate`/`validation` are the service's business exceptions
(`src/utils/exceptions.py`); `parseError` is a pydantic `ValidationError`
raised while re-constructing a stored `Task`; `ioError` is a failure of
`Database._save_data`. -/
inductive Err where
  | notFound
  | duplicate
  | validation
  | parseError
  | ioError
deriving DecidableEq, Repr

/-- Re-construction of a stored task by `Task(**data)`
(`src/models/task.py`): the `TaskBase` validators run again, stripping the
title, rejecting a blank one, and rejecting a `due_date` earlier than the
current time. -/
def readTask (now : Nat) (t : Task) : Except Err Task :=
  if t.title.pyStrip = "" then .error .parseError
  else
    match t.due_date with
    | some d =>
        if d < now then .error .parseError
        else .ok { t with title := t.title.pyStrip }
    | none => .ok { t with title := t.title.pyStrip }

/-- Python-dict assignment `data[id] = item`: replace in place if the key is
present, otherwise append (insertion order preserved). -/
def upsert : Store → Task → Store
  | [], t => [t]
  | u :: rest, t => if u.id = t.id then t :: rest else u :: upsert rest t

namespace Database

/-- `Database.insert` (`src/database/connection.py`): assign into the dict,
then `_save_data`; a failing write leaves the in-memory assignment done and
raises. -/
def insert (w : Bool) (s : Store) (t : Task) : Except Err Unit × Store :=
  (if w then .ok () else .error .ioError, upsert s t)

/-- `Database.update`: only if the id is present, assign and `_save_data`,
returning `True`; absent ids return `False` untouched (and never write). -/
def update (w : Bool) : Store → Task → Except Err Bool × Store
  | [], _ => (.ok false, [])
  | u :: rest, t =>
    if u.id = t.id then
      (if w then .ok true else .error .ioError, t :: rest)
    else
      let r := update w rest t
      (r.1, u :: r.2)

/-- `Database.delete`: only if the id is present, remove and `_save_data`,
returning `True`; absent ids return `False` untouched. -/
def delete (w : Bool) : Store → String → Except Err Bool × Store
  | [], _ => (.ok false, [])
  | u :: rest, i =>
    if u.id = i then
      (if w then .ok true else .error .ioError, rest)
    else
      let r := delete w rest i
      (r.1, u :: r.2)

end Database

namespace TaskRepository

/-- `TaskRepository.find_all`: rebuild a `Task` from every stored record, in
store order; the first record failing validation raises. -/
def find_all (now : Nat) : Store → Except Err (List Task)
  | [] => .ok []
  | t :: rest =>
    match readTask now t with
    | .error e => .error e
    | .ok t' =>
      match find_all now rest with
      | .error e => .error e
      | .ok ts => .ok (t' :: ts)

/-- `TaskRepository.find_by_id`: dict lookup, then rebuild the one record. -/
def find_by_id (now : Nat) (s : Store) (task_id : String) : Except Err (Option Task) :=
  match s.find? (fun t => t.id == task_id) with
  | none => .ok none
  | some t => (readTask now t).map some

/-- `TaskRepository.find_by_status`: filter `find_all` by exact status. -/
def find_by_status (now : Nat) (status : TaskStatus) (s : Store) : Except Err (List Task) :=
  (find_all now s).map (fun ts => ts.filter (fun t => t.status == status))

/-- `TaskRepository.find_by_title`: first task of `find_all` whose title
matches case-insensitively. -/
def find_by_title (now : Nat) (s : Store) (title : String) : Except Err (Option Task) :=
  (find_all now s).map (fun ts => ts.find? (fun t => t.title.pyLower == title.pyLower))

/-- `TaskRepository.save`: serialize and insert keyed by `task.id`, returning
the task.  (Serialization fidelity is verified separately at the record
level.) -/
def save (w : Bool) (t : Task) (s : Store) : Except Err Task × Store :=
  let r := Database.insert w s t
  (r.1.map (fun _ => t), r.2)

/-- `TaskRepository.update`: stamp `updated_at` with the current time, write
via `Database.update`, and return the stamped task, ignoring the boolean (an
absent id is silently dropped). -/
def update (now : Nat) (w : Bool) (t : Task) (s : Store) : Except Err Task × Store :=
  let t' := { t with updated_at := now }
  let r := Database.update w s t'
  (r.1.map (fun _ => t'), r.2)

/-- `TaskRepository.delete`: delegate to `Database.delete`. -/
def delete (w : Bool) (task_id : String) (s : Store) : Except Err Bool × Store :=
  Database.delete w s task_id

end TaskRepository

/-- Stable descending insertion: the element goes before the first task whose
`created_at` is not greater.  This realizes Python's stable
`list.sort(key, reverse := ...)` on the `created_at` key. -/
def insertDesc (t : Task) : List Task → List Task
  | [] => [t]
  | u :: rest => if u.created_at ≤ t.created_at then t :: u :: rest else u :: insertDesc t rest

/-- Stable sort by `created_at` descending (Python `list.sort` with
`reverse=True` is stable: ties keep their original order). -/
def sortByCreatedDesc : List Task → List Task
  | [] => []
  | t :: rest => insertDesc t (sortByCreatedDesc rest)

/-- Aggregate result of `TaskService.get_statistics`; the by-status and
by-priority dicts are modelled as total count functions (`dict.get` with
default 0). -/
structure Statistics where
  total : Nat
  by_status : TaskStatus → Nat
  by_priority : TaskPriority → Nat
  overdue : Nat

/-- The source's overdue test: `due_date` present, earlier than now, and
status not completed. -/
def isOverdue (now : Nat) (t : Task) : Bool :=
  (match t.due_date with
   | some d => decide (d < now)
   | none => false)
  && !(t.status == TaskStatus.completed)

/-- One iteration of the statistics loop over a task. -/
def statsStep (now : Nat) (acc : Statistics) (t : Task) : Statistics :=
  { acc with
    by_status := Function.update acc.by_status t.status (acc.by_status t.status + 1),
    by_priority := Function.update acc.by_priority t.priority (acc.by_priority t.priority + 1),
    overdue := acc.overdue + (if isOverdue now t then 1 else 0) }

namespace TaskService

/-- `TaskService.get_task_by_id`: `find_by_id`, raising `NotFound` on
absence. -/
def get_task_by_id (now : Nat) (task_id : String) (s : Store) : Except Err Task :=
  match TaskRepository.find_by_id now s task_id with
  | .error e => .error e
  | .ok none => .error .notFound
  | .ok (some t) => .ok t

/-- `TaskService.get_all_tasks`: `find_all`, then sort by `created_at`
descending. -/
def get_all_tasks (now : Nat) (s : Store) : Except Err (List Task) :=
  (TaskRepository.find_all now s).map sortByCreatedDesc

/-- `TaskService.get_tasks_by_status`: `find_by_status`, then the same
sort. -/
def get_tasks_by_status (now : Nat) (status : TaskStatus) (s : Store) : Except Err (List Task) :=
  (TaskRepository.find_by_status now status s).map sortByCreatedDesc

/-- The task object built by `TaskService.create_task`: a fresh id, the
request's fields, and `created_at = updated_at = now`. -/
def mkTask (fresh_id : String) (d : TaskCreate) (now : Nat) : Task :=
  { id := fresh_id, title := d.title, description := d.description,
    priority := d.priority, status := d.status, due_date := d.due_date,
    created_at := now, updated_at := now }

/-- `TaskService.create_task`: duplicate-title check first, then the past
due-date check, then build and persist.  `fresh_id` stands for
`str(uuid.uuid4())`. -/
def create_task (now : Nat) (fresh_id : String) (w : Bool) (d : TaskCreate) (s : Store) :
    Except Err Task × Store :=
  match TaskRepository.find_by_title now s d.title with
  | .error e => (.error e, s)
  | .ok (some _) => (.error .duplicate, s)
  | .ok none =>
    match d.due_date with
    | some dd =>
      if dd < now then (.error .validation, s)
      else TaskRepository.save w (mkTask fresh_id d now) s
    | none => TaskRepository.save w (mkTask fresh_id d now) s

/-- The duplicate-title validation of `TaskService.update_task`, run only
when `title` is among the patched fields. -/
def titleCheck (now : Nat) (task_id : String) (u : TaskUpdate) (s : Store) : Except Err Unit :=
  match u.title with
  | none => .ok ()
  | some newTitle =>
    match TaskRepository.find_by_title now s newTitle with
    | .error e => .error e
    | .ok (some other) => if other.id = task_id then .ok () else .error .duplicate
    | .ok none => .ok ()

/-- The past due-date validation of `TaskService.update_task`, run only when
`due_date` is among the patched fields and non-null. -/
def dueCheck (now : Nat) (u : TaskUpdate) : Except Err Unit :=
  match u.due_date with
  | some (some dd) => if dd < now then .error .validation else .ok ()
  | _ => .ok ()

/-- The `setattr` loop of `TaskService.update_task`: exactly the explicitly
patched fields overwrite the existing task's fields. -/
def applyUpdate (t : Task) (u : TaskUpdate) : Task :=
  { t with
    title := u.title.getD t.title,
    description := u.description.getD t.description,
    priority := u.priority.getD t.priority,
    status := u.status.getD t.status,
    due_date := u.due_date.getD t.due_date }

/-- `TaskService.update_task`: existence check, duplicate-title check,
due-date check, apply the patch, persist via the repository's `update`. -/
def update_task (now : Nat) (w : Bool) (task_id : String) (u : TaskUpdate) (s : Store) :
    Except Err Task × Store :=
  match get_task_by_id now task_id s with
  | .error e => (.error e, s)
  | .ok existing =>
    match titleCheck now task_id u s with
    | .error e => (.error e, s)
    | .ok _ =>
      match dueCheck now u with
      | .error e => (.error e, s)
      | .ok _ => TaskRepository.update now w (applyUpdate existing u) s

/-- `TaskService.delete_task`: existence check, then repository delete. -/
def delete_task (now : Nat) (w : Bool) (task_id : String) (s : Store) :
    Except Err Bool × Store :=
  match get_task_by_id now task_id s with
  | .error e => (.error e, s)
  | .ok _ => TaskRepository.delete w task_id s

/-- `TaskService.complete_task`: `update_task` with the patch
`TaskUpdate(status := completed)`, whose only set field is `status`. -/
def complete_task (now : Nat) (w : Bool) (task_id : String) (s : Store) :
    Except Err Task × Store :=
  update_task now w task_id { status := some .completed } s

/-- `TaskService.get_statistics`: one `find_all` (validated at the read
instant `rnow`), then a single pass counting with the later instant
`snow`. -/
def get_statistics (rnow snow : Nat) (s : Store) : Except Err Statistics :=
  (TaskRepository.find_all rnow s).map (fun ts =>
    ts.foldl (statsStep snow)
      { total := ts.length, by_status := fun _ => 0, by_priority := fun _ => 0, overdue := 0 })

end TaskService

end TaskManager

namespace TaskManager

/-! ### Well-formedness of stores and basic store lemmas -/

/-- A stored task that pydantic can re-construct at instant `now`: its title
does not strip to blank, and its due date (if any) has not passed. -/
def ReadableTask (now : Nat) (t : Task) : Prop :=
  t.title.pyStrip ≠ "" ∧ ∀ d, t.due_date = some d → ¬ d < now

/-- Every stored task is re-constructible at `now`. -/
def StoreReadable (now : Nat) (s : Store) : Prop :=
  ∀ t ∈ s, ReadableTask now t

/-- Stored titles are in the stripped, non-blank form the boundary validators
guarantee; the service only ever stores such titles. -/
def TitlesStored (s : Store) : Prop :=
  ∀ t ∈ s, t.title.pyStrip = t.title ∧ t.title ≠ ""

/-- The ids keying the store are pairwise distinct (a Python dict cannot hold
a key twice). -/
def IdsNodup (s : Store) : Prop :=
  (s.map TaskG.id).Nodup

/-- No two tasks of the store share a title up to case. -/
def TitlesDistinct (s : Store) : Prop :=
  s.Pairwise (fun a b => a.title.pyLower ≠ b.title.pyLower)

/-- The state invariant maintained by the service. -/
def Inv (s : Store) : Prop :=
  IdsNodup s ∧ TitlesStored s ∧ TitlesDistinct s

/-- Rebuilding a stored task only strips its title. -/
def trimTitle (t : Task) : Task :=
  { t with title := t.title.pyStrip }

theorem trimTitle_eq_self {t : Task} (h : t.title.pyStrip = t.title) : trimTitle t = t := by
  cases t
  simp [trimTitle] at h ⊢
  exact h

theorem readTask_eq_ok {now : Nat} {t : Task} (h : ReadableTask now t) :
    readTask now t = .ok (trimTitle t) := by
  obtain ⟨h1, h2⟩ := h
  cases hd : t.due_date with
  | none => simp [readTask, hd, h1, trimTitle]
  | some d =>
    have hlt := h2 d hd
    simp [readTask, hd, h1, hlt, trimTitle]

theorem readTask_ok_inv {now : Nat} {t t' : Task} (h : readTask now t = .ok t') :
    t' = trimTitle t ∧ ReadableTask now t := by
  by_cases h1 : t.title.pyStrip = ""
  · simp [readTask, h1] at h
  · cases hd : t.due_date with
    | none =>
      have hr : ReadableTask now t :=
        ⟨h1, by intro d hd'; rw [hd] at hd'; cases hd'⟩
      rw [readTask_eq_ok hr] at h
      cases h
      exact ⟨rfl, hr⟩
    | some d =>
      by_cases hlt : d < now
      · simp [readTask, hd, h1, hlt] at h
      · have hr : ReadableTask now t :=
          ⟨h1, by intro d' hd'; rw [hd] at hd'; cases hd'; exact hlt⟩
        rw [readTask_eq_ok hr] at h
        cases h
        exact ⟨rfl, hr⟩

theorem find_all_map {now : Nat} {s : Store} (h : StoreReadable now s) :
    TaskRepository.find_all now s = .ok (s.map trimTitle) := by
  induction s with
  | nil => rfl
  | cons t rest ih =>
    have ht : ReadableTask now t := h t (List.mem_cons_self t rest)
    have hrest : StoreReadable now rest := fun x hx => h x (List.mem_cons_of_mem t hx)
    unfold TaskRepository.find_all
    rw [readTask_eq_ok ht, ih hrest]
    rfl

theorem titlesStored_trim {s : Store} (h : TitlesStored s) : s.map trimTitle = s := by
  induction s with
  | nil => rfl
  | cons t rest ih =>
    have ht := h t (List.mem_cons_self t rest)
    have : TitlesStored rest := fun x hx => h x (List.mem_cons_of_mem t hx)
    simp only [List.map_cons, trimTitle_eq_self ht.1, ih this]

theorem find_all_self {now : Nat} {s : Store} (hts : TitlesStored s)
    (h : StoreReadable now s) : TaskRepository.find_all now s = .ok s := by
  rw [find_all_map h, titlesStored_trim hts]

theorem find_all_ok_inv {now : Nat} {s : Store} {ts : List Task}
    (h : TaskRepository.find_all now s = .ok ts) :
    ts = s.map trimTitle ∧ StoreReadable now s := by
  induction s generalizing ts with
  | nil =>
    cases h
    exact ⟨rfl, fun t ht => absurd ht (List.not_mem_nil t)⟩
  | cons t rest ih =>
    unfold TaskRepository.find_all at h
    cases hr : readTask now t with
    | error e => rw [hr] at h; cases h
    | ok t' =>
      rw [hr] at h
      cases hrest : TaskRepository.find_all now rest with
      | error e => rw [hrest] at h; cases h
      | ok ts' =>
        rw [hrest] at h
        cases h
        obtain ⟨h1, h2⟩ := readTask_ok_inv hr
        obtain ⟨h3, h4⟩ := ih hrest
        subst h1 h3
        refine ⟨rfl, fun x hx => ?_⟩
        rcases List.mem_cons.mp hx with rfl | hx
        · exact h2
        · exact h4 x hx

/-! ### Lemmas about the dict operations -/

theorem upsert_of_fresh {s : Store} {t : Task} (h : ∀ u ∈ s, u.id ≠ t.id) :
    upsert s t = s ++ [t] := by
  induction s with
  | nil => rfl
  | cons u rest ih =>
    unfold upsert
    rw [if_neg (h u (List.mem_cons_self u rest))]
    rw [ih (fun x hx => h x (List.mem_cons_of_mem u hx))]
    rfl

theorem mem_upsert {s : Store} {t x : Task} (h : x ∈ upsert s t) : x = t ∨ x ∈ s := by
  induction s with
  | nil =>
    unfold upsert at h
    rcases List.mem_singleton.mp h with rfl
    exact Or.inl rfl
  | cons u rest ih =>
    unfold upsert at h
    by_cases he : u.id = t.id
    · rw [if_pos he] at h
      rcases List.mem_cons.mp h with rfl | hx
      · exact Or.inl rfl
      · exact Or.inr (List.mem_cons_of_mem u hx)
    · rw [if_neg he] at h
      rcases List.mem_cons.mp h with rfl | hx
      · exact Or.inr (List.mem_cons_self x rest)
      · rcases ih hx with h' | h'
        · exact Or.inl h'
        · exact Or.inr (List.mem_cons_of_mem u h')

theorem mem_ids_upsert {s : Store} {t : Task} {i : String}
    (h : i ∈ (upsert s t).map TaskG.id) : i = t.id ∨ i ∈ s.map TaskG.id := by
  rcases List.mem_map.mp h with ⟨x, hx, rfl⟩
  rcases mem_upsert hx with rfl | hx'
  · exact Or.inl rfl
  · exact Or.inr (List.mem_map_of_mem TaskG.id hx')

theorem idsNodup_upsert {s : Store} {t : Task} (h : IdsNodup s) : IdsNodup (upsert s t) := by
  induction s with
  | nil => simp [upsert, IdsNodup]
  | cons u rest ih =>
    unfold IdsNodup at h ⊢
    rw [List.map_cons, List.nodup_cons] at h
    unfold upsert
    by_cases he : u.id = t.id
    · rw [if_pos he]
      rw [List.map_cons, List.nodup_cons]
      exact ⟨by rw [← he]; exact h.1, h.2⟩
    · rw [if_neg he]
      rw [List.map_cons, List.nodup_cons]
      refine ⟨?_, ih h.2⟩
      intro hmem
      rcases mem_ids_upsert hmem with h' | h'
      · exact he h'
      · exact h.1 h'

theorem titlesDistinct_upsert {s : Store} {t : Task}
    (hfresh : ∀ u ∈ s, u.title.pyLower ≠ t.title.pyLower)
    (h : TitlesDistinct s) : TitlesDistinct (upsert s t) := by
  induction s with
  | nil => simp [upsert, TitlesDistinct]
  | cons u rest ih =>
    unfold TitlesDistinct at h ⊢
    rw [List.pairwise_cons] at h
    unfold upsert
    by_cases he : u.id = t.id
    · rw [if_pos he, List.pairwise_cons]
      refine ⟨fun v hv => ?_, h.2⟩
      exact Ne.symm (hfresh v (List.mem_cons_of_mem u hv))
    · rw [if_neg he, List.pairwise_cons]
      refine ⟨fun v hv => ?_, ih (fun x hx => hfresh x (List.mem_cons_of_mem u hx)) h.2⟩
      rcases mem_upsert hv with rfl | hv'
      · exact hfresh u (List.mem_cons_self u rest)
      · exact h.1 v hv'

theorem titlesStored_upsert {s : Store} {t : Task}
    (ht : t.title.pyStrip = t.title ∧ t.title ≠ "")
    (h : TitlesStored s) : TitlesStored (upsert s t) := by
  intro x hx
  rcases mem_upsert hx with rfl | hx'
  · exact ht
  · exact h x hx'

end TaskManager

namespace TaskManager

/-! ### Lookup lemmas -/

theorem find?_id_eq_none {s : Store} {i : String} :
    s.find? (fun t => t.id == i) = none ↔ ∀ t ∈ s, t.id ≠ i := by
  rw [List.find?_eq_none]
  simp

theorem find?_id_some {s : Store} {i : String} {t : Task}
    (h : s.find? (fun t => t.id == i) = some t) : t ∈ s ∧ t.id = i := by
  refine ⟨List.mem_of_find?_eq_some h, ?_⟩
  have := List.find?_some h
  simpa using this

/-! ### `Database.update` lemmas -/

theorem db_update_absent {w : Bool} {s : Store} {t : Task}
    (h : ∀ u ∈ s, u.id ≠ t.id) : Database.update w s t = (.ok false, s) := by
  induction s with
  | nil => rfl
  | cons u rest ih =>
    unfold Database.update
    rw [if_neg (h u (List.mem_cons_self u rest))]
    rw [ih (fun x hx => h x (List.mem_cons_of_mem u hx))]

theorem db_update_ids {w : Bool} {s : Store} {t : Task} :
    ((Database.update w s t).2).map TaskG.id = s.map TaskG.id := by
  induction s with
  | nil => rfl
  | cons u rest ih =>
    unfold Database.update
    by_cases he : u.id = t.id
    · rw [if_pos he]
      simp [he]
    · rw [if_neg he]
      simp [ih]

theorem mem_db_update {w : Bool} {s : Store} {t x : Task}
    (h : x ∈ (Database.update w s t).2) : x = t ∨ x ∈ s := by
  induction s with
  | nil =>
    simp [Database.update] at h
  | cons u rest ih =>
    unfold Database.update at h
    by_cases he : u.id = t.id
    · rw [if_pos he] at h
      rcases List.mem_cons.mp h with rfl | hx
      · exact Or.inl rfl
      · exact Or.inr (List.mem_cons_of_mem u hx)
    · rw [if_neg he] at h
      rcases List.mem_cons.mp h with rfl | hx
      · exact Or.inr (List.mem_cons_self x rest)
      · rcases ih hx with h' | h'
        · exact Or.inl h'
        · exact Or.inr (List.mem_cons_of_mem u h')

theorem db_update_fst_present {w : Bool} {s : Store} {t v : Task}
    (hv : v ∈ s) (hid : v.id = t.id) :
    (Database.update w s t).1 = (if w then .ok true else .error .ioError) := by
  induction s with
  | nil => cases hv
  | cons u rest ih =>
    unfold Database.update
    by_cases he : u.id = t.id
    · rw [if_pos he]
    · rw [if_neg he]
      rcases List.mem_cons.mp hv with rfl | hv'
      · exact absurd hid he
      · exact ih hv'

theorem db_update_find {w : Bool} {s : Store} {t v : Task}
    (hv : v ∈ s) (hid : v.id = t.id) :
    (Database.update w s t).2.find? (fun x => x.id == t.id) = some t := by
  induction s with
  | nil => cases hv
  | cons u rest ih =>
    unfold Database.update
    by_cases he : u.id = t.id
    · rw [if_pos he]
      simp [List.find?_cons]
    · rw [if_neg he]
      rcases List.mem_cons.mp hv with rfl | hv'
      · exact absurd hid he
      · simpa [List.find?_cons, he] using ih hv'

theorem db_update_titlesDistinct {w : Bool} {s : Store} {t : Task}
    (hids : IdsNodup s)
    (hfresh : ∀ v ∈ s, v.id ≠ t.id → v.title.pyLower ≠ t.title.pyLower)
    (h : TitlesDistinct s) : TitlesDistinct ((Database.update w s t).2) := by
  induction s with
  | nil => simp [Database.update, TitlesDistinct]
  | cons u rest ih =>
    unfold IdsNodup at hids
    rw [List.map_cons, List.nodup_cons] at hids
    unfold TitlesDistinct at h ⊢
    rw [List.pairwise_cons] at h
    unfold Database.update
    by_cases he : u.id = t.id
    · rw [if_pos he, List.pairwise_cons]
      refine ⟨fun v hv => ?_, h.2⟩
      have hvne : v.id ≠ t.id := by
        intro hc
        apply hids.1
        rw [he, ← hc]
        exact List.mem_map_of_mem TaskG.id hv
      exact Ne.symm (hfresh v (List.mem_cons_of_mem u hv) hvne)
    · rw [if_neg he, List.pairwise_cons]
      refine ⟨fun v hv => ?_, ih hids.2 (fun x hx hne => hfresh x (List.mem_cons_of_mem u hx) hne) h.2⟩
      rcases mem_db_update hv with rfl | hv'
      · exact hfresh u (List.mem_cons_self u rest) he
      · exact h.1 v hv'

theorem db_update_titlesStored {w : Bool} {s : Store} {t : Task}
    (ht : t.title.pyStrip = t.title ∧ t.title ≠ "")
    (h : TitlesStored s) : TitlesStored ((Database.update w s t).2) := by
  intro x hx
  rcases mem_db_update hx with rfl | hx'
  · exact ht
  · exact h x hx'

theorem db_update_idsNodup {w : Bool} {s : Store} {t : Task}
    (h : IdsNodup s) : IdsNodup ((Database.update w s t).2) := by
  unfold IdsNodup
  rw [db_update_ids]
  exact h

/-! ### `Database.delete` lemmas -/

theorem db_delete_absent {w : Bool} {s : Store} {i : String}
    (h : ∀ u ∈ s, u.id ≠ i) : Database.delete w s i = (.ok false, s) := by
  induction s with
  | nil => rfl
  | cons u rest ih =>
    unfold Database.delete
    rw [if_neg (h u (List.mem_cons_self u rest))]
    rw [ih (fun x hx => h x (List.mem_cons_of_mem u hx))]

theorem db_delete_snd_eq_eraseP {w : Bool} {s : Store} {i : String} :
    (Database.delete w s i).2 = s.eraseP (fun t => t.id == i) := by
  induction s with
  | nil => rfl
  | cons u rest ih =>
    unfold Database.delete
    by_cases he : u.id = i
    · rw [if_pos he]
      simp [List.eraseP_cons, he]
    · rw [if_neg he]
      simp [List.eraseP_cons, he, ih]

theorem db_delete_snd_sublist {w : Bool} {s : Store} {i : String} :
    ((Database.delete w s i).2).Sublist s := by
  rw [db_delete_snd_eq_eraseP]
  exact List.eraseP_sublist s

theorem db_delete_fst_present {w : Bool} {s : Store} {i : String} {v : Task}
    (hv : v ∈ s) (hid : v.id = i) :
    (Database.delete w s i).1 = (if w then .ok true else .error .ioError) := by
  induction s with
  | nil => cases hv
  | cons u rest ih =>
    unfold Database.delete
    by_cases he : u.id = i
    · rw [if_pos he]
    · rw [if_neg he]
      rcases List.mem_cons.mp hv with rfl | hv'
      · exact absurd hid he
      · exact ih hv'

theorem db_delete_id_absent {w : Bool} {s : Store} {i : String}
    (hids : IdsNodup s) : ∀ x ∈ (Database.delete w s i).2, x.id ≠ i := by
  induction s with
  | nil => simp [Database.delete]
  | cons u rest ih =>
    unfold IdsNodup at hids
    rw [List.map_cons, List.nodup_cons] at hids
    unfold Database.delete
    by_cases he : u.id = i
    · rw [if_pos he]
      intro x hx hc
      apply hids.1
      rw [he, ← hc]
      exact List.mem_map_of_mem TaskG.id hx
    · rw [if_neg he]
      intro x hx hc
      rcases List.mem_cons.mp hx with rfl | hx'
      · exact he hc
      · exact ih hids.2 x hx' hc

end TaskManager

namespace TaskManager

/-! ### Service-level inversion lemmas -/

theorem readTask_error_parseError {now : Nat} {t : Task} {e : Err}
    (h : readTask now t = .error e) : e = .parseError := by
  by_cases h1 : t.title.pyStrip = ""
  · simp [readTask, h1] at h
    exact h.symm
  · cases hd : t.due_date with
    | none => simp [readTask, h1, hd] at h
    | some d =>
      by_cases hlt : d < now
      · simp [readTask, h1, hd, hlt] at h
        exact h.symm
      · simp [readTask, h1, hd, hlt] at h

theorem get_task_by_id_ok_inv {now : Nat} {i : String} {s : Store} {t : Task}
    (h : TaskService.get_task_by_id now i s = .ok t) :
    ∃ t0, t0 ∈ s ∧ t0.id = i ∧ t = trimTitle t0 ∧ ReadableTask now t0 := by
  unfold TaskService.get_task_by_id TaskRepository.find_by_id at h
  cases hf : s.find? (fun t => t.id == i) with
  | none => rw [hf] at h; simp at h
  | some t0 =>
    rw [hf] at h
    cases hr : readTask now t0 with
    | error e => simp [hr, Except.map] at h
    | ok t1 =>
      simp [hr, Except.map] at h
      subst h
      obtain ⟨h1, h2⟩ := readTask_ok_inv hr
      obtain ⟨hmem, hid⟩ := find?_id_some hf
      exact ⟨t0, hmem, hid, h1, h2⟩

theorem get_task_by_id_notFound_iff {now : Nat} {i : String} {s : Store} :
    TaskService.get_task_by_id now i s = .error .notFound ↔ ∀ t ∈ s, t.id ≠ i := by
  constructor
  · intro h
    unfold TaskService.get_task_by_id TaskRepository.find_by_id at h
    cases hf : s.find? (fun t => t.id == i) with
    | none => exact find?_id_eq_none.mp hf
    | some t0 =>
      rw [hf] at h
      cases hr : readTask now t0 with
      | error e =>
        cases readTask_error_parseError hr
        simp [hr, Except.map] at h
      | ok t1 => simp [hr, Except.map] at h
  · intro h
    unfold TaskService.get_task_by_id TaskRepository.find_by_id
    rw [find?_id_eq_none.mpr h]

theorem find_by_title_none_inv {now : Nat} {s : Store} {x : String}
    (h : TaskRepository.find_by_title now s x = .ok none) :
    StoreReadable now s ∧ ∀ t ∈ s, (t.title.pyStrip).pyLower ≠ x.pyLower := by
  unfold TaskRepository.find_by_title at h
  cases hfa : TaskRepository.find_all now s with
  | error e => rw [hfa] at h; cases h
  | ok ts =>
    rw [hfa] at h
    obtain ⟨hts, hread⟩ := find_all_ok_inv hfa
    subst hts
    simp only [Except.map, Except.ok.injEq] at h
    refine ⟨hread, fun t ht hc => ?_⟩
    have := List.find?_eq_none.mp h (trimTitle t) (List.mem_map_of_mem trimTitle ht)
    simp [trimTitle] at this
    exact this hc

theorem find_by_title_some_inv {now : Nat} {s : Store} {x : String} {other : Task}
    (h : TaskRepository.find_by_title now s x = .ok (some other)) :
    StoreReadable now s ∧
      ∃ u0, u0 ∈ s ∧ other = trimTitle u0 ∧ ((u0.title.pyStrip).pyLower = x.pyLower) ∧
        other.id = u0.id := by
  unfold TaskRepository.find_by_title at h
  cases hfa : TaskRepository.find_all now s with
  | error e => rw [hfa] at h; cases h
  | ok ts =>
    rw [hfa] at h
    obtain ⟨hts, hread⟩ := find_all_ok_inv hfa
    subst hts
    simp only [Except.map, Except.ok.injEq] at h
    have hmem := List.mem_of_find?_eq_some h
    have hp := List.find?_some h
    rcases List.mem_map.mp hmem with ⟨u0, hu0, rfl⟩
    refine ⟨hread, u0, hu0, rfl, ?_, rfl⟩
    simpa [trimTitle] using hp

theorem titlesDistinct_elem {s : Store} (h : TitlesDistinct s) :
    ∀ a ∈ s, ∀ b ∈ s, a.title.pyLower = b.title.pyLower → a = b := by
  induction s with
  | nil => intro a ha; cases ha
  | cons u rest ih =>
    unfold TitlesDistinct at h
    rw [List.pairwise_cons] at h
    intro a ha b hb heq
    rcases List.mem_cons.mp ha with rfl | ha' <;> rcases List.mem_cons.mp hb with rfl | hb'
    · rfl
    · exact absurd heq (h.1 b hb')
    · exact absurd heq.symm (h.1 a ha')
    · exact ih h.2 a ha' b hb' heq

theorem titleCheck_ok_some_inv {now : Nat} {i : String} {u : TaskUpdate} {s : Store} {x : String}
    (hut : u.title = some x) (h : TaskService.titleCheck now i u s = .ok ()) :
    TaskRepository.find_by_title now s x = .ok none ∨
      ∃ other, TaskRepository.find_by_title now s x = .ok (some other) ∧ other.id = i := by
  unfold TaskService.titleCheck at h
  simp only [hut] at h
  cases hfb : TaskRepository.find_by_title now s x with
  | error e => rw [hfb] at h; simp at h
  | ok r =>
    cases r with
    | none => exact Or.inl rfl
    | some other =>
      rw [hfb] at h
      by_cases ho : other.id = i
      · exact Or.inr ⟨other, rfl, ho⟩
      · simp [ho] at h

theorem dueCheck_ok_inv {now : Nat} {u : TaskUpdate}
    (h : TaskService.dueCheck now u = .ok ()) :
    ∀ dd, u.due_date = some (some dd) → ¬ dd < now := by
  intro dd hdd hlt
  unfold TaskService.dueCheck at h
  rw [hdd] at h
  have h2 : (if dd < now then (Except.error Err.validation : Except Err Unit)
      else Except.ok ()) = Except.ok () := h
  rw [if_pos hlt] at h2
  cases h2

/-! ### Equation lemmas for the service operations -/

theorem create_task_eq_of_error {now : Nat} {fid : String} {w : Bool} {d : TaskCreate}
    {s : Store} {e : Err} (hft : TaskRepository.find_by_title now s d.title = .error e) :
    TaskService.create_task now fid w d s = (.error e, s) := by
  unfold TaskService.create_task
  rw [hft]

theorem create_task_eq_of_some {now : Nat} {fid : String} {w : Bool} {d : TaskCreate}
    {s : Store} {t : Task} (hft : TaskRepository.find_by_title now s d.title = .ok (some t)) :
    TaskService.create_task now fid w d s = (.error .duplicate, s) := by
  unfold TaskService.create_task
  rw [hft]

theorem create_task_eq_of_none {now : Nat} {fid : String} {w : Bool} {d : TaskCreate}
    {s : Store} (hft : TaskRepository.find_by_title now s d.title = .ok none) :
    TaskService.create_task now fid w d s =
      (match d.due_date with
       | some dd =>
         if dd < now then (.error .validation, s)
         else TaskRepository.save w (TaskService.mkTask fid d now) s
       | none => TaskRepository.save w (TaskService.mkTask fid d now) s) := by
  unfold TaskService.create_task
  rw [hft]

theorem update_task_eq_of_get_error {now : Nat} {w : Bool} {i : String} {u : TaskUpdate}
    {s : Store} {e : Err} (hg : TaskService.get_task_by_id now i s = .error e) :
    TaskService.update_task now w i u s = (.error e, s) := by
  unfold TaskService.update_task
  rw [hg]

theorem update_task_eq_of_titleCheck_error {now : Nat} {w : Bool} {i : String}
    {u : TaskUpdate} {s : Store} {ex : Task} {e : Err}
    (hg : TaskService.get_task_by_id now i s = .ok ex)
    (htc : TaskService.titleCheck now i u s = .error e) :
    TaskService.update_task now w i u s = (.error e, s) := by
  unfold TaskService.update_task
  rw [hg, htc]

theorem update_task_eq_of_dueCheck_error {now : Nat} {w : Bool} {i : String}
    {u : TaskUpdate} {s : Store} {ex : Task} {e : Err}
    (hg : TaskService.get_task_by_id now i s = .ok ex)
    (htc : TaskService.titleCheck now i u s = .ok ())
    (hdc : TaskService.dueCheck now u = .error e) :
    TaskService.update_task now w i u s = (.error e, s) := by
  unfold TaskService.update_task
  rw [hg, htc, hdc]

theorem update_task_eq_of_checks {now : Nat} {w : Bool} {i : String}
    {u : TaskUpdate} {s : Store} {ex : Task}
    (hg : TaskService.get_task_by_id now i s = .ok ex)
    (htc : TaskService.titleCheck now i u s = .ok ())
    (hdc : TaskService.dueCheck now u = .ok ()) :
    TaskService.update_task now w i u s =
      TaskRepository.update now w (TaskService.applyUpdate ex u) s := by
  unfold TaskService.update_task
  rw [hg, htc, hdc]

theorem delete_task_eq_of_get_error {now : Nat} {w : Bool} {i : String} {s : Store} {e : Err}
    (hg : TaskService.get_task_by_id now i s = .error e) :
    TaskService.delete_task now w i s = (.error e, s) := by
  unfold TaskService.delete_task
  rw [hg]

theorem delete_task_eq_of_get_ok {now : Nat} {w : Bool} {i : String} {s : Store} {t : Task}
    (hg : TaskService.get_task_by_id now i s = .ok t) :
    TaskService.delete_task now w i s = TaskRepository.delete w i s := by
  unfold TaskService.delete_task
  rw [hg]

/-! ### The reachable-state relation and the service invariant -/

/-- One service call, as a transition on the store.  `create` and `update`
carry the guarantee that pydantic already validated the incoming payload; the
clock instant, the generated uuid and the fate of the file write are
arbitrary.  Failing calls are included (their resulting store is just the
relevant mutation or no change at all). -/
inductive SStep : Store → Store → Prop where
  | create (now : Nat) (fresh_id : String) (w : Bool) (d : TaskCreate) (s : Store)
      (hd : d.Valid) : SStep s (TaskService.create_task now fresh_id w d s).2
  | update (now : Nat) (w : Bool) (task_id : String) (u : TaskUpdate) (s : Store)
      (hu : u.Valid) : SStep s (TaskService.update_task now w task_id u s).2
  | delete (now : Nat) (w : Bool) (task_id : String) (s : Store) :
      SStep s (TaskService.delete_task now w task_id s).2
  | complete (now : Nat) (w : Bool) (task_id : String) (s : Store) :
      SStep s (TaskService.complete_task now w task_id s).2

/-- Stores reachable from the empty store through service calls. -/
def Reachable (s : Store) : Prop :=
  Relation.ReflTransGen SStep [] s

theorem inv_empty : Inv [] :=
  ⟨List.nodup_nil, fun t ht => absurd ht (List.not_mem_nil t), List.Pairwise.nil⟩

theorem inv_create {now : Nat} {fid : String} {w : Bool} {d : TaskCreate} {s : Store}
    (hd : d.Valid) (h : Inv s) : Inv (TaskService.create_task now fid w d s).2 := by
  obtain ⟨hids, hts, htd⟩ := h
  cases hft : TaskRepository.find_by_title now s d.title with
  | error e =>
    rw [create_task_eq_of_error hft]
    exact ⟨hids, hts, htd⟩
  | ok r =>
    cases r with
    | some t =>
      rw [create_task_eq_of_some hft]
      exact ⟨hids, hts, htd⟩
    | none =>
      rw [create_task_eq_of_none hft]
      have hsave : Inv (TaskRepository.save w (TaskService.mkTask fid d now) s).2 := by
        have hfresh : ∀ v ∈ s, v.title.pyLower ≠ (TaskService.mkTask fid d now).title.pyLower := by
          intro v hv
          have := (find_by_title_none_inv hft).2 v hv
          rwa [(hts v hv).1] at this
        refine ⟨idsNodup_upsert hids, titlesStored_upsert ⟨hd.1, hd.2⟩ hts,
          titlesDistinct_upsert hfresh htd⟩
      cases hdd : d.due_date with
      | none => exact hsave
      | some dd =>
        by_cases hlt : dd < now
        · simp only [if_pos hlt]
          exact ⟨hids, hts, htd⟩
        · simp only [if_neg hlt]
          exact hsave

theorem inv_update {now : Nat} {w : Bool} {i : String} {u : TaskUpdate} {s : Store}
    (hu : u.Valid) (h : Inv s) : Inv (TaskService.update_task now w i u s).2 := by
  obtain ⟨hids, hts, htd⟩ := h
  cases hg : TaskService.get_task_by_id now i s with
  | error e =>
    rw [update_task_eq_of_get_error hg]
    exact ⟨hids, hts, htd⟩
  | ok existing =>
    cases htc : TaskService.titleCheck now i u s with
    | error e =>
      rw [update_task_eq_of_titleCheck_error hg htc]
      exact ⟨hids, hts, htd⟩
    | ok v1 =>
      cases hdc : TaskService.dueCheck now u with
      | error e =>
        cases v1
        rw [update_task_eq_of_dueCheck_error hg htc hdc]
        exact ⟨hids, hts, htd⟩
      | ok v2 =>
        cases v1
        cases v2
        rw [update_task_eq_of_checks hg htc hdc]
        obtain ⟨t0, ht0mem, ht0id, hex, hread⟩ := get_task_by_id_ok_inv hg
        have hext : existing = t0 := by
          rw [hex, trimTitle_eq_self (hts t0 ht0mem).1]
        subst hext
        have htitle : (TaskService.applyUpdate existing u).title = u.title.getD existing.title := rfl
        have hid' : (TaskService.applyUpdate existing u).id = i := by
          rw [← ht0id]; rfl
        have tstored' : (TaskService.applyUpdate existing u).title.pyStrip =
            (TaskService.applyUpdate existing u).title ∧
            (TaskService.applyUpdate existing u).title ≠ "" := by
          rw [htitle]
          cases hut : u.title with
          | none => exact hts existing ht0mem
          | some x => exact hu x hut
        have hfresh : ∀ v ∈ s, v.id ≠ (TaskService.applyUpdate existing u).id →
            v.title.pyLower ≠ (TaskService.applyUpdate existing u).title.pyLower := by
          rw [hid', htitle]
          cases hut : u.title with
          | none =>
            intro v hv hvne hc
            simp only [Option.getD_none] at hc
            have := titlesDistinct_elem htd v hv existing ht0mem hc
            rw [this] at hvne
            exact hvne ht0id
          | some x =>
            intro v hv hvne hc
            simp only [Option.getD_some] at hc
            rcases titleCheck_ok_some_inv hut htc with hnone | ⟨other, hsome, hoid⟩
            · have := (find_by_title_none_inv hnone).2 v hv
              rw [(hts v hv).1] at this
              exact this hc
            · obtain ⟨_, u0, hu0mem, hu0eq, hu0t, hu0id⟩ := find_by_title_some_inv hsome
              have hu0eq' : other = u0 := by
                rw [hu0eq, trimTitle_eq_self (hts u0 hu0mem).1]
              rw [(hts u0 hu0mem).1] at hu0t
              have : v = u0 := titlesDistinct_elem htd v hv u0 hu0mem (by rw [hc, ← hu0t])
              rw [this] at hvne
              rw [hu0eq'] at hoid
              exact hvne hoid
        -- the repository update keyed by the (unchanged) id
        simp only [TaskRepository.update]
        have hsd : ∀ j : Task, j = { TaskService.applyUpdate existing u with updated_at := now } →
            Inv ((Database.update w s j).2) := by
          intro j hj
          have hjid : j.id = (TaskService.applyUpdate existing u).id := by rw [hj]
          have hjt : j.title = (TaskService.applyUpdate existing u).title := by rw [hj]
          refine ⟨db_update_idsNodup hids, db_update_titlesStored ?_ hts,
            db_update_titlesDistinct hids ?_ htd⟩
          · rw [hjt]; exact tstored'
          · intro v hv hvne
            rw [hjt]
            exact hfresh v hv (by rwa [hjid] at hvne)
        exact hsd _ rfl

theorem inv_delete {now : Nat} {w : Bool} {i : String} {s : Store}
    (h : Inv s) : Inv (TaskService.delete_task now w i s).2 := by
  obtain ⟨hids, hts, htd⟩ := h
  cases hg : TaskService.get_task_by_id now i s with
  | error e =>
    rw [delete_task_eq_of_get_error hg]
    exact ⟨hids, hts, htd⟩
  | ok t =>
    rw [delete_task_eq_of_get_ok hg]
    unfold TaskRepository.delete
    have hsub : ((Database.delete w s i).2).Sublist s := db_delete_snd_sublist
    refine ⟨List.Nodup.sublist (List.Sublist.map TaskG.id hsub) hids,
      fun x hx => hts x (hsub.subset hx), List.Pairwise.sublist hsub htd⟩

theorem completePatch_valid : (TaskUpdate.Valid { status := some .completed }) :=
  fun x hx => Option.noConfusion hx

theorem sstep_inv {s s' : Store} (h : SStep s s') (hinv : Inv s) : Inv s' := by
  cases h with
  | create now fid w d s hd => exact inv_create hd hinv
  | update now w i u s hu => exact inv_update hu hinv
  | delete now w i s => exact inv_delete hinv
  | complete now w i s => exact inv_update completePatch_valid hinv

theorem reachable_inv {s : Store} (h : Reachable s) : Inv s := by
  induction h with
  | refl => exact inv_empty
  | tail _ hstep ih => exact sstep_inv hstep ih

end TaskManager

namespace TaskManager

/-! ### Sorting lemmas -/

/-- Descending order on `created_at`: newest first. -/
def CreatedDesc (a b : Task) : Prop :=
  b.created_at ≤ a.created_at

theorem insertDesc_perm (t : Task) (l : List Task) :
    (insertDesc t l).Perm (t :: l) := by
  induction l with
  | nil => exact List.Perm.refl _
  | cons u rest ih =>
    unfold insertDesc
    by_cases hle : u.created_at ≤ t.created_at
    · rw [if_pos hle]
    · rw [if_neg hle]
      exact ((ih.cons u).trans (List.Perm.swap t u rest))

theorem mem_insertDesc {t x : Task} {l : List Task} (h : x ∈ insertDesc t l) :
    x = t ∨ x ∈ l := by
  have := (insertDesc_perm t l).subset h
  exact List.mem_cons.mp this

theorem insertDesc_sorted {t : Task} {l : List Task}
    (h : l.Pairwise CreatedDesc) : (insertDesc t l).Pairwise CreatedDesc := by
  induction l with
  | nil => simp [insertDesc, List.pairwise_cons]
  | cons u rest ih =>
    rw [List.pairwise_cons] at h
    unfold insertDesc
    by_cases hle : u.created_at ≤ t.created_at
    · rw [if_pos hle]
      rw [List.pairwise_cons]
      refine ⟨fun v hv => ?_, List.pairwise_cons.mpr h⟩
      rcases List.mem_cons.mp hv with rfl | hv'
      · exact hle
      · exact le_trans (h.1 v hv') hle
    · rw [if_neg hle]
      rw [List.pairwise_cons]
      refine ⟨fun v hv => ?_, ih h.2⟩
      rcases mem_insertDesc hv with rfl | hv'
      · exact le_of_lt (lt_of_not_le hle)
      · exact h.1 v hv'

theorem insertDesc_filter_eq {t : Task} {l : List Task} {k : Nat} (hk : t.created_at = k) :
    (insertDesc t l).filter (fun x => x.created_at == k) =
      t :: l.filter (fun x => x.created_at == k) := by
  induction l with
  | nil => simp [insertDesc, List.filter, hk]
  | cons u rest ih =>
    unfold insertDesc
    by_cases hle : u.created_at ≤ t.created_at
    · rw [if_pos hle]
      simp [List.filter_cons, hk]
    · rw [if_neg hle]
      have hu : u.created_at ≠ k := by
        intro hc
        exact hle (by rw [hc, ← hk])
      simp only [List.filter_cons]
      rw [ih]
      simp [hu]

theorem insertDesc_filter_ne {t : Task} {l : List Task} {k : Nat} (hk : t.created_at ≠ k) :
    (insertDesc t l).filter (fun x => x.created_at == k) =
      l.filter (fun x => x.created_at == k) := by
  induction l with
  | nil =>
    unfold insertDesc
    rw [List.filter_cons, List.filter_nil]
    simp [hk]
  | cons u rest ih =>
    unfold insertDesc
    by_cases hle : u.created_at ≤ t.created_at
    · rw [if_pos hle]
      simp [List.filter_cons, hk]
    · rw [if_neg hle]
      simp only [List.filter_cons]
      rw [ih]

theorem sortByCreatedDesc_perm (l : List Task) : (sortByCreatedDesc l).Perm l := by
  induction l with
  | nil => exact List.Perm.refl _
  | cons t rest ih =>
    unfold sortByCreatedDesc
    exact (insertDesc_perm t (sortByCreatedDesc rest)).trans (ih.cons t)

theorem sortByCreatedDesc_sorted (l : List Task) :
    (sortByCreatedDesc l).Pairwise CreatedDesc := by
  induction l with
  | nil => exact List.Pairwise.nil
  | cons t rest ih =>
    unfold sortByCreatedDesc
    exact insertDesc_sorted ih

theorem sortByCreatedDesc_stable (l : List Task) (k : Nat) :
    (sortByCreatedDesc l).filter (fun x => x.created_at == k) =
      l.filter (fun x => x.created_at == k) := by
  induction l with
  | nil => rfl
  | cons t rest ih =>
    unfold sortByCreatedDesc
    by_cases hk : t.created_at = k
    · rw [insertDesc_filter_eq hk, ih]
      simp [List.filter_cons, hk]
    · rw [insertDesc_filter_ne hk, ih]
      simp [List.filter_cons, hk]

/-! ### Statistics lemmas -/

theorem foldl_stats_total (now : Nat) (ts : List Task) (acc : Statistics) :
    (ts.foldl (statsStep now) acc).total = acc.total := by
  induction ts generalizing acc with
  | nil => rfl
  | cons t rest ih =>
    rw [List.foldl_cons, ih]
    rfl

theorem foldl_stats_by_status (now : Nat) (ts : List Task) (acc : Statistics)
    (st : TaskStatus) :
    (ts.foldl (statsStep now) acc).by_status st =
      acc.by_status st + ts.countP (fun t => t.status == st) := by
  induction ts generalizing acc with
  | nil => simp
  | cons t rest ih =>
    rw [List.foldl_cons, ih, List.countP_cons]
    by_cases hst : t.status = st
    · simp [statsStep, Function.update_apply, hst]
      omega
    · simp [statsStep, Function.update_apply, hst, Ne.symm hst]

theorem foldl_stats_by_priority (now : Nat) (ts : List Task) (acc : Statistics)
    (p : TaskPriority) :
    (ts.foldl (statsStep now) acc).by_priority p =
      acc.by_priority p + ts.countP (fun t => t.priority == p) := by
  induction ts generalizing acc with
  | nil => simp
  | cons t rest ih =>
    rw [List.foldl_cons, ih, List.countP_cons]
    by_cases hp : t.priority = p
    · simp [statsStep, Function.update_apply, hp]
      omega
    · simp [statsStep, Function.update_apply, hp, Ne.symm hp]

theorem foldl_stats_overdue (now : Nat) (ts : List Task) (acc : Statistics) :
    (ts.foldl (statsStep now) acc).overdue =
      acc.overdue + ts.countP (isOverdue now) := by
  induction ts generalizing acc with
  | nil => simp
  | cons t rest ih =>
    rw [List.foldl_cons, ih, List.countP_cons]
    by_cases ho : isOverdue now t
    · simp [statsStep, ho]
      omega
    · simp [statsStep, ho]

end TaskManager

namespace TaskManager

/-! ### Persistence level: datetimes, ISO-8601 serialization, records

`TaskRepository.save` stores ISO-8601 strings produced by Python's
`datetime.isoformat()` (`YYYY-MM-DDTHH:MM:SS` plus `.ffffff` exactly when the
microsecond field is non-zero); `TaskRepository.find_by_id` hands such strings
back to pydantic, which parses ISO-8601 and re-runs the `TaskBase`
validators.  The parser below accepts exactly the grammar `isoformat` emits,
which is how pydantic's lax datetime parsing behaves on these strings. -/

/-- A naive Python `datetime.datetime`. -/
structure DateTime where
  year : Nat
  month : Nat
  day : Nat
  hour : Nat
  minute : Nat
  second : Nat
  microsecond : Nat
deriving DecidableEq, Repr

/-- The field ranges Python's `datetime` guarantees (day-in-month exactness is
irrelevant to serialization). -/
def DateTime.InRange (dt : DateTime) : Prop :=
  1 ≤ dt.year ∧ dt.year ≤ 9999 ∧ 1 ≤ dt.month ∧ dt.month ≤ 12 ∧ 1 ≤ dt.day ∧ dt.day ≤ 31 ∧
    dt.hour ≤ 23 ∧ dt.minute ≤ 59 ∧ dt.second ≤ 59 ∧ dt.microsecond ≤ 999999

/-- Python's `<` on naive datetimes: lexicographic on the seven fields. -/
def dtLt (a b : DateTime) : Bool :=
  if a.year < b.year then true
  else if b.year < a.year then false
  else if a.month < b.month then true
  else if b.month < a.month then false
  else if a.day < b.day then true
  else if b.day < a.day then false
  else if a.hour < b.hour then true
  else if b.hour < a.hour then false
  else if a.minute < b.minute then true
  else if b.minute < a.minute then false
  else if a.second < b.second then true
  else if b.second < a.second then false
  else decide (a.microsecond < b.microsecond)

/-- The decimal digit character for `d` (callers keep `d < 10`). -/
def digitChar (d : Nat) : Char :=
  match d with
  | 0 => '0' | 1 => '1' | 2 => '2' | 3 => '3' | 4 => '4'
  | 5 => '5' | 6 => '6' | 7 => '7' | 8 => '8' | _ => '9'

/-- The numeric value of a digit character. -/
def charDigit (c : Char) : Nat :=
  c.toNat - 48

/-- Zero-padded fixed-width decimal rendering, most significant digit first:
Python's `%04d`/`%02d`/`%06d` as used by `isoformat`. -/
def padChars : Nat → Nat → List Char
  | 0, _ => []
  | k + 1, n => digitChar (n / 10 ^ k) :: padChars k (n % 10 ^ k)

/-- Consume exactly `k` digit characters, accumulating their decimal value. -/
def takeDigits : Nat → Nat → List Char → Option (Nat × List Char)
  | 0, acc, cs => some (acc, cs)
  | k + 1, acc, c :: cs =>
    if c.isDigit then takeDigits k (acc * 10 + charDigit c) cs else none
  | _ + 1, _, [] => none

/-- Consume one expected punctuation character. -/
def expectChar (c : Char) : List Char → Option (List Char)
  | d :: cs => if d = c then some cs else none
  | [] => none

theorem charDigit_digitChar {d : Nat} (h : d < 10) : charDigit (digitChar d) = d := by
  interval_cases d <;> decide

theorem isDigit_digitChar {d : Nat} (h : d < 10) : (digitChar d).isDigit = true := by
  interval_cases d <;> decide

theorem takeDigits_padChars_acc (k : Nat) :
    ∀ (n acc : Nat) (rest : List Char), n < 10 ^ k →
      takeDigits k acc (padChars k n ++ rest) = some (acc * 10 ^ k + n, rest) := by
  induction k with
  | zero =>
    intro n acc rest hn
    simp [padChars, takeDigits]
    omega
  | succ k ih =>
    intro n acc rest hn
    have hq : n / 10 ^ k < 10 := by
      rw [Nat.div_lt_iff_lt_mul (Nat.pos_pow_of_pos k (by norm_num))]
      calc n < 10 ^ (k + 1) := hn
        _ = 10 * 10 ^ k := by ring
    have hr : n % 10 ^ k < 10 ^ k := Nat.mod_lt n (Nat.pos_pow_of_pos k (by norm_num))
    unfold padChars
    rw [List.cons_append]
    unfold takeDigits
    rw [if_pos (isDigit_digitChar hq), charDigit_digitChar hq, ih _ _ _ hr]
    have hdm := Nat.div_add_mod n (10 ^ k)
    have : (acc * 10 + n / 10 ^ k) * 10 ^ k + n % 10 ^ k = acc * 10 ^ (k + 1) + n := by
      have hexp : (10:Nat) ^ (k + 1) = 10 ^ k * 10 := by ring
      calc (acc * 10 + n / 10 ^ k) * 10 ^ k + n % 10 ^ k
          = acc * (10 ^ k * 10) + (10 ^ k * (n / 10 ^ k) + n % 10 ^ k) := by ring
        _ = acc * 10 ^ (k + 1) + n := by rw [hdm, hexp]
    rw [this]

theorem takeDigits_padChars {k n : Nat} (rest : List Char) (hn : n < 10 ^ k) :
    takeDigits k 0 (padChars k n ++ rest) = some (n, rest) := by
  rw [takeDigits_padChars_acc k n 0 rest hn]
  simp

theorem expectChar_cons (c : Char) (rest : List Char) :
    expectChar c (c :: rest) = some rest := by
  simp [expectChar]

/-- The characters of `datetime.isoformat()`: `YYYY-MM-DDTHH:MM:SS`, with
`.ffffff` appended exactly when `microsecond` is non-zero. -/
def isoChars (dt : DateTime) : List Char :=
  padChars 4 dt.year ++ '-' :: (padChars 2 dt.month ++ '-' :: (padChars 2 dt.day ++
    'T' :: (padChars 2 dt.hour ++ ':' :: (padChars 2 dt.minute ++ ':' :: (padChars 2 dt.second ++
      (if dt.microsecond = 0 then [] else '.' :: padChars 6 dt.microsecond))))))

/-- `datetime.isoformat()` as a string. -/
def isoformat (dt : DateTime) : String :=
  String.mk (isoChars dt)

/-- The optional fraction part: absent means zero microseconds, a dot starts
six fractional digits. -/
def parseFrac : List Char → Option (Nat × List Char)
  | [] => some (0, [])
  | c :: cs2 => if c = '.' then takeDigits 6 0 cs2 else none

/-- The final `datetime` construction with its range checks. -/
def mkDateTime (y mo da h mi sec micro : Nat) : Option DateTime :=
  if 1 ≤ y ∧ y ≤ 9999 ∧ 1 ≤ mo ∧ mo ≤ 12 ∧ 1 ≤ da ∧ da ≤ 31 ∧
      h ≤ 23 ∧ mi ≤ 59 ∧ sec ≤ 59 ∧ micro ≤ 999999 then
    some ⟨y, mo, da, h, mi, sec, micro⟩
  else none

/-- Pydantic's datetime parsing, on the grammar `isoformat` emits: the six
dash/colon-separated fixed-width fields, an optional `.ffffff` fraction, and
the `datetime` range checks. -/
def parseIsoChars (cs : List Char) : Option DateTime :=
  (takeDigits 4 0 cs).bind (fun p1 =>
  (expectChar '-' p1.2).bind (fun cs1 =>
  (takeDigits 2 0 cs1).bind (fun p2 =>
  (expectChar '-' p2.2).bind (fun cs2 =>
  (takeDigits 2 0 cs2).bind (fun p3 =>
  (expectChar 'T' p3.2).bind (fun cs3 =>
  (takeDigits 2 0 cs3).bind (fun p4 =>
  (expectChar ':' p4.2).bind (fun cs4 =>
  (takeDigits 2 0 cs4).bind (fun p5 =>
  (expectChar ':' p5.2).bind (fun cs5 =>
  (takeDigits 2 0 cs5).bind (fun p6 =>
  (parseFrac p6.2).bind (fun p7 =>
  if p7.2 = [] then
    mkDateTime p1.1 p2.1 p3.1 p4.1 p5.1 p6.1 p7.1
  else none))))))))))))

/-- Pydantic's datetime parsing on a string. -/
def parseIso (s : String) : Option DateTime :=
  parseIsoChars s.data

theorem takeDigits_padChars_nil {k n : Nat} (hn : n < 10 ^ k) :
    takeDigits k 0 (padChars k n) = some (n, []) := by
  rw [← List.append_nil (padChars k n)]
  exact takeDigits_padChars [] hn

theorem obind_some {α β : Type} (a : α) (f : α → Option β) :
    (Option.some a).bind f = f a := rfl

theorem parseFrac_nil : parseFrac [] = some (0, []) := rfl

theorem parseFrac_dot (cs2 : List Char) :
    parseFrac ('.' :: cs2) = takeDigits 6 0 cs2 := by
  simp [parseFrac]

theorem parseIsoChars_isoChars {dt : DateTime} (h : dt.InRange) :
    parseIsoChars (isoChars dt) = some dt := by
  obtain ⟨y0, mo0, da0, h0, mi0, s0, mic0⟩ := dt
  obtain ⟨h1, h2, h3, h4, h5, h6, h7, h8, h9, h10⟩ := h
  simp only [DateTime.InRange] at h1 h2 h3 h4 h5 h6 h7 h8 h9 h10
  have hy : y0 < 10 ^ 4 := by norm_num; omega
  have hmo : mo0 < 10 ^ 2 := by norm_num; omega
  have hda : da0 < 10 ^ 2 := by norm_num; omega
  have hh : h0 < 10 ^ 2 := by norm_num; omega
  have hmi : mi0 < 10 ^ 2 := by norm_num; omega
  have hs : s0 < 10 ^ 2 := by norm_num; omega
  have hmic : mic0 < 10 ^ 6 := by norm_num; omega
  by_cases hm : mic0 = 0
  · subst hm
    simp only [parseIsoChars, isoChars, eq_self_iff_true, if_true, List.append_nil]
    rw [takeDigits_padChars _ hy, obind_some]
    rw [expectChar_cons, obind_some]
    rw [takeDigits_padChars _ hmo, obind_some]
    rw [expectChar_cons, obind_some]
    rw [takeDigits_padChars _ hda, obind_some]
    rw [expectChar_cons, obind_some]
    rw [takeDigits_padChars _ hh, obind_some]
    rw [expectChar_cons, obind_some]
    rw [takeDigits_padChars _ hmi, obind_some]
    rw [expectChar_cons, obind_some]
    rw [takeDigits_padChars_nil hs, obind_some]
    rw [parseFrac_nil, obind_some]
    simp only [if_pos rfl]
    unfold mkDateTime
    have hcond : 1 ≤ y0 ∧ y0 ≤ 9999 ∧ 1 ≤ mo0 ∧ mo0 ≤ 12 ∧ 1 ≤ da0 ∧ da0 ≤ 31 ∧
        h0 ≤ 23 ∧ mi0 ≤ 59 ∧ s0 ≤ 59 ∧ (0:Nat) ≤ 999999 :=
      ⟨h1, h2, h3, h4, h5, h6, h7, h8, h9, h10⟩
    rw [if_pos hcond]
    simp
  · simp only [parseIsoChars, isoChars, if_neg hm]
    rw [takeDigits_padChars _ hy, obind_some]
    rw [expectChar_cons, obind_some]
    rw [takeDigits_padChars _ hmo, obind_some]
    rw [expectChar_cons, obind_some]
    rw [takeDigits_padChars _ hda, obind_some]
    rw [expectChar_cons, obind_some]
    rw [takeDigits_padChars _ hh, obind_some]
    rw [expectChar_cons, obind_some]
    rw [takeDigits_padChars _ hmi, obind_some]
    rw [expectChar_cons, obind_some]
    rw [takeDigits_padChars _ hs, obind_some]
    rw [parseFrac_dot, takeDigits_padChars_nil hmic, obind_some]
    simp only [if_pos rfl]
    unfold mkDateTime
    have hcond : 1 ≤ y0 ∧ y0 ≤ 9999 ∧ 1 ≤ mo0 ∧ mo0 ≤ 12 ∧ 1 ≤ da0 ∧ da0 ≤ 31 ∧
        h0 ≤ 23 ∧ mi0 ≤ 59 ∧ s0 ≤ 59 ∧ mic0 ≤ 999999 :=
      ⟨h1, h2, h3, h4, h5, h6, h7, h8, h9, h10⟩
    rw [if_pos hcond]
    simp

theorem parseIso_isoformat {dt : DateTime} (h : dt.InRange) :
    parseIso (isoformat dt) = some dt := by
  unfold parseIso isoformat
  exact parseIsoChars_isoChars h

end TaskManager

namespace TaskManager

/-- A persisted task record: what `TaskRepository.save` puts into the Store
(`model_dump` with the three datetime fields converted to ISO strings; an
absent `due_date` stays null). -/
structure TaskRecord where
  id : String
  title : String
  description : Option String
  priority : TaskPriority
  status : TaskStatus
  due_date : Option String
  created_at : String
  updated_at : String
deriving DecidableEq, Repr

/-- The serialization performed by `TaskRepository.save`
(`src/repositories/task_repository.py`): all fields verbatim, datetimes
ISO-encoded. -/
def serializeRecord (t : TaskG DateTime) : TaskRecord :=
  { id := t.id, title := t.title, description := t.description,
    priority := t.priority, status := t.status,
    due_date := t.due_date.map isoformat,
    created_at := isoformat t.created_at, updated_at := isoformat t.updated_at }

/-- The due-date field of a stored record, parsed: null stays null, a string
must parse as a datetime. -/
def readDue (r : TaskRecord) : Option (Option DateTime) :=
  match r.due_date with
  | none => some none
  | some ds => (parseIso ds).map some

/-- The `due_date_must_be_future` test on an optional parsed due date. -/
def dueBadAt (now : DateTime) : Option DateTime → Bool
  | some d => dtLt d now
  | none => false

/-- `Task(**task_data)` on a stored record: pydantic parses the ISO strings
back to datetimes and re-runs the `TaskBase` validators (strip-title,
non-blank title, due date not in the past).  `none` is a raised
`ValidationError`. -/
def readRecord (now : DateTime) (r : TaskRecord) : Option (TaskG DateTime) :=
  match parseIso r.created_at with
  | none => none
  | some ca =>
    match parseIso r.updated_at with
    | none => none
    | some ua =>
      match readDue r with
      | none => none
      | some dd =>
        if r.title.pyStrip = "" then none
        else if dueBadAt now dd then none
        else some { id := r.id, title := r.title.pyStrip, description := r.description,
                    priority := r.priority, status := r.status, due_date := dd,
                    created_at := ca, updated_at := ua }

theorem readRecord_eq {now : DateTime} {r : TaskRecord} {ca ua : DateTime}
    {dd : Option DateTime}
    (h1 : parseIso r.created_at = some ca)
    (h2 : parseIso r.updated_at = some ua)
    (h3 : readDue r = some dd)
    (h4 : ¬ r.title.pyStrip = "")
    (h5 : dueBadAt now dd = false) :
    readRecord now r =
      some { id := r.id, title := r.title.pyStrip, description := r.description,
             priority := r.priority, status := r.status, due_date := dd,
             created_at := ca, updated_at := ua } := by
  unfold readRecord
  rw [h1, h2, h3]
  show (if r.title.pyStrip = "" then (none : Option (TaskG DateTime))
        else if dueBadAt now dd = true then none
        else some { id := r.id, title := r.title.pyStrip, description := r.description,
                    priority := r.priority, status := r.status, due_date := dd,
                    created_at := ca, updated_at := ua }) =
      some { id := r.id, title := r.title.pyStrip, description := r.description,
             priority := r.priority, status := r.status, due_date := dd,
             created_at := ca, updated_at := ua }
  rw [if_neg h4, h5]
  simp

/-- Python-dict assignment at the record level (`Database.insert` keyed by
`task.id`). -/
def upsertRecord : List TaskRecord → TaskRecord → List TaskRecord
  | [], r => [r]
  | u :: rest, r => if u.id = r.id then r :: rest else u :: upsertRecord rest r

/-- `TaskRepository.save` at the record level: serialize, insert keyed by
`task.id` (the file write plays no role in what `find_by_id` reads back). -/
def saveRecord (rs : List TaskRecord) (t : TaskG DateTime) : List TaskRecord :=
  upsertRecord rs (serializeRecord t)

/-- `TaskRepository.find_by_id` at the record level: dict lookup, then
re-construction; `some none` is Python's `None`, `none` a raised
`ValidationError`. -/
def find_by_idRecord (now : DateTime) (rs : List TaskRecord) (i : String) :
    Option (Option (TaskG DateTime)) :=
  match rs.find? (fun r => r.id == i) with
  | none => some none
  | some r => (readRecord now r).map some

theorem find?_upsertRecord (rs : List TaskRecord) (r : TaskRecord) :
    (upsertRecord rs r).find? (fun x => x.id == r.id) = some r := by
  induction rs with
  | nil => simp [upsertRecord, List.find?_cons]
  | cons u rest ih =>
    unfold upsertRecord
    by_cases he : u.id = r.id
    · rw [if_pos he]
      simp [List.find?_cons]
    · rw [if_neg he]
      simpa [List.find?_cons, he] using ih

theorem readDue_none {r : TaskRecord} (h : r.due_date = none) : readDue r = some none := by
  unfold readDue
  rw [h]

theorem readDue_some {r : TaskRecord} {ds : String} (h : r.due_date = some ds) :
    readDue r = (parseIso ds).map some := by
  unfold readDue
  rw [h]

theorem readRecord_serializeRecord {now : DateTime} {t : TaskG DateTime}
    (hca : t.created_at.InRange) (hua : t.updated_at.InRange)
    (hdd : ∀ d, t.due_date = some d → d.InRange ∧ dtLt d now = false)
    (htr : t.title.pyStrip = t.title) (hne : t.title ≠ "") :
    readRecord now (serializeRecord t) = some t := by
  have h3 : readDue (serializeRecord t) = some t.due_date := by
    cases hdu : t.due_date with
    | none =>
      have hsd : (serializeRecord t).due_date = none := by
        rw [show (serializeRecord t).due_date = Option.map isoformat t.due_date from rfl, hdu]
        rfl
      rw [readDue_none hsd]
    | some d =>
      have hsd : (serializeRecord t).due_date = some (isoformat d) := by
        rw [show (serializeRecord t).due_date = Option.map isoformat t.due_date from rfl, hdu]
        rfl
      rw [readDue_some hsd, parseIso_isoformat (hdd d hdu).1]
      rfl
  have h4 : ¬ (serializeRecord t).title.pyStrip = "" := by
    rw [show (serializeRecord t).title = t.title from rfl, htr]
    exact hne
  have h5 : dueBadAt now t.due_date = false := by
    cases hdu : t.due_date with
    | none => rfl
    | some d => exact (hdd d hdu).2
  rw [readRecord_eq
      (show parseIso (serializeRecord t).created_at = some t.created_at from
        parseIso_isoformat hca)
      (show parseIso (serializeRecord t).updated_at = some t.updated_at from
        parseIso_isoformat hua)
      h3 h4 h5]
  obtain ⟨i0, ti0, de0, pr0, st0, du0, ca0, ua0⟩ := t
  simp only [serializeRecord]
  simp [htr]

end TaskManager

namespace TaskManager

/-! ### More helper lemmas for the claim theorems -/

theorem find_all_error_parseError {now : Nat} {s : Store} {e : Err}
    (h : TaskRepository.find_all now s = .error e) : e = .parseError := by
  induction s with
  | nil => cases h
  | cons t rest ih =>
    unfold TaskRepository.find_all at h
    cases hr : readTask now t with
    | error e' =>
      rw [hr] at h
      cases h
      exact readTask_error_parseError hr
    | ok t' =>
      rw [hr] at h
      cases hrest : TaskRepository.find_all now rest with
      | error e' =>
        rw [hrest] at h
        cases h
        exact ih hrest
      | ok ts => rw [hrest] at h; cases h

theorem find_by_title_error_parseError {now : Nat} {s : Store} {x : String} {e : Err}
    (h : TaskRepository.find_by_title now s x = .error e) : e = .parseError := by
  unfold TaskRepository.find_by_title at h
  cases hfa : TaskRepository.find_all now s with
  | error e' =>
    rw [hfa] at h
    cases h
    exact find_all_error_parseError hfa
  | ok ts => rw [hfa] at h; cases h

theorem titleCheck_error_cases {now : Nat} {i : String} {u : TaskUpdate} {s : Store} {e : Err}
    (h : TaskService.titleCheck now i u s = .error e) :
    e = .duplicate ∨ e = .parseError := by
  unfold TaskService.titleCheck at h
  cases hut : u.title with
  | none => rw [hut] at h; cases h
  | some x =>
    rw [hut] at h
    have h2 : (match TaskRepository.find_by_title now s x with
               | Except.error e => (Except.error e : Except Err Unit)
               | Except.ok (some other) =>
                 if other.id = i then Except.ok () else Except.error Err.duplicate
               | Except.ok none => Except.ok ()) = Except.error e := h
    cases hfb : TaskRepository.find_by_title now s x with
    | error e' =>
      rw [hfb] at h2
      cases h2
      exact Or.inr (find_by_title_error_parseError hfb)
    | ok r =>
      rw [hfb] at h2
      cases r with
      | none => cases h2
      | some other =>
        have h3 : (if other.id = i then (Except.ok () : Except Err Unit)
            else Except.error Err.duplicate) = Except.error e := h2
        by_cases ho : other.id = i
        · rw [if_pos ho] at h3; cases h3
        · rw [if_neg ho] at h3
          cases h3
          exact Or.inl rfl

theorem dueCheck_error_validation {now : Nat} {u : TaskUpdate} {e : Err}
    (h : TaskService.dueCheck now u = .error e) : e = .validation := by
  unfold TaskService.dueCheck at h
  cases hdd : u.due_date with
  | none => rw [hdd] at h; cases h
  | some od =>
    cases od with
    | none => rw [hdd] at h; cases h
    | some dd =>
      rw [hdd] at h
      have h2 : (if dd < now then (Except.error Err.validation : Except Err Unit)
          else Except.ok ()) = Except.error e := h
      by_cases hlt : dd < now
      · rw [if_pos hlt] at h2
        cases h2
        rfl
      · rw [if_neg hlt] at h2
        cases h2

theorem db_update_fst_cases (w : Bool) (s : Store) (t : Task) :
    (Database.update w s t).1 = .ok true ∨ (Database.update w s t).1 = .ok false ∨
      (Database.update w s t).1 = .error .ioError := by
  induction s with
  | nil => exact Or.inr (Or.inl rfl)
  | cons u rest ih =>
    unfold Database.update
    by_cases he : u.id = t.id
    · rw [if_pos he]
      cases w
      · exact Or.inr (Or.inr rfl)
      · exact Or.inl rfl
    · rw [if_neg he]
      exact ih

theorem db_delete_fst_cases (w : Bool) (s : Store) (i : String) :
    (Database.delete w s i).1 = .ok true ∨ (Database.delete w s i).1 = .ok false ∨
      (Database.delete w s i).1 = .error .ioError := by
  induction s with
  | nil => exact Or.inr (Or.inl rfl)
  | cons u rest ih =>
    unfold Database.delete
    by_cases he : u.id = i
    · rw [if_pos he]
      cases w
      · exact Or.inr (Or.inr rfl)
      · exact Or.inl rfl
    · rw [if_neg he]
      exact ih

theorem find?_of_mem_nodup {s : Store} {t0 : Task} {i : String}
    (hids : IdsNodup s) (hmem : t0 ∈ s) (hid : t0.id = i) :
    s.find? (fun t => t.id == i) = some t0 := by
  induction s with
  | nil => cases hmem
  | cons u rest ih =>
    unfold IdsNodup at hids
    rw [List.map_cons, List.nodup_cons] at hids
    by_cases he : u.id = i
    · have ht0u : t0 = u := by
        rcases List.mem_cons.mp hmem with rfl | hmem'
        · rfl
        · exfalso
          apply hids.1
          rw [he, ← hid]
          exact List.mem_map_of_mem TaskG.id hmem'
      rw [List.find?_cons, ht0u]
      simp [he]
    · have ht0r : t0 ∈ rest := by
        rcases List.mem_cons.mp hmem with rfl | hmem'
        · exact absurd hid he
        · exact hmem'
      rw [List.find?_cons]
      simp only [show (u.id == i) = false from by simp [he]]
      exact ih hids.2 ht0r

theorem get_task_by_id_eq_of_mem {now : Nat} {s : Store} {t0 : Task} {i : String}
    (hids : IdsNodup s) (hmem : t0 ∈ s) (hid : t0.id = i) (hr : ReadableTask now t0) :
    TaskService.get_task_by_id now i s = .ok (trimTitle t0) := by
  unfold TaskService.get_task_by_id TaskRepository.find_by_id
  rw [find?_of_mem_nodup hids hmem hid]
  show (match Except.map some (readTask now t0) with
        | Except.error e => (Except.error e : Except Err Task)
        | Except.ok none => Except.error Err.notFound
        | Except.ok (some t) => Except.ok t) = Except.ok (trimTitle t0)
  rw [readTask_eq_ok hr]
  rfl

theorem find_by_title_eq_none {now : Nat} {s : Store} {x : String}
    (hr : StoreReadable now s)
    (h : ∀ t ∈ s, (t.title.pyStrip).pyLower ≠ x.pyLower) :
    TaskRepository.find_by_title now s x = .ok none := by
  unfold TaskRepository.find_by_title
  rw [find_all_map hr]
  have hfn : (s.map trimTitle).find? (fun t => t.title.pyLower == x.pyLower) = none := by
    rw [List.find?_eq_none]
    intro y hy
    rcases List.mem_map.mp hy with ⟨t, ht, rfl⟩
    simp [trimTitle]
    exact h t ht
  rw [show Except.map (fun ts => ts.find? (fun t => t.title.pyLower == x.pyLower))
      (Except.ok (s.map trimTitle)) =
      (Except.ok ((s.map trimTitle).find? (fun t => t.title.pyLower == x.pyLower)) :
        Except Err (Option Task)) from rfl, hfn]

theorem find_by_title_isSome {now : Nat} {s : Store} {x : String} {t : Task}
    (hr : StoreReadable now s) (hmem : t ∈ s) (hmatch : (t.title.pyStrip).pyLower = x.pyLower) :
    ∃ other, TaskRepository.find_by_title now s x = .ok (some other) := by
  unfold TaskRepository.find_by_title
  rw [find_all_map hr]
  have : ((s.map trimTitle).find? (fun t => t.title.pyLower == x.pyLower)).isSome := by
    rw [List.find?_isSome]
    exact ⟨trimTitle t, List.mem_map_of_mem trimTitle hmem, by simp [trimTitle, hmatch]⟩
  rcases Option.isSome_iff_exists.mp this with ⟨other, hother⟩
  exact ⟨other, by
    rw [show Except.map (fun ts => ts.find? (fun t => t.title.pyLower == x.pyLower))
        (Except.ok (s.map trimTitle)) =
        (Except.ok ((s.map trimTitle).find? (fun t => t.title.pyLower == x.pyLower)) :
          Except Err (Option Task)) from rfl, hother]⟩

end TaskManager

namespace TaskManager

/-! ### NotFound characterizations and success inversion -/

theorem update_task_notFound_iff {now : Nat} {w : Bool} {i : String} {u : TaskUpdate}
    {s : Store} :
    (TaskService.update_task now w i u s).1 = .error .notFound ↔ ∀ t ∈ s, t.id ≠ i := by
  constructor
  · intro h
    cases hg : TaskService.get_task_by_id now i s with
    | error e =>
      rw [update_task_eq_of_get_error hg] at h
      cases h
      exact get_task_by_id_notFound_iff.mp hg
    | ok ex =>
      exfalso
      cases htc : TaskService.titleCheck now i u s with
      | error e =>
        rw [update_task_eq_of_titleCheck_error hg htc] at h
        cases h
        rcases titleCheck_error_cases htc with h' | h' <;> cases h'
      | ok v1 =>
        cases v1
        cases hdc : TaskService.dueCheck now u with
        | error e =>
          rw [update_task_eq_of_dueCheck_error hg htc hdc] at h
          cases h
          cases dueCheck_error_validation hdc
        | ok v2 =>
          cases v2
          rw [update_task_eq_of_checks hg htc hdc] at h
          unfold TaskRepository.update at h
          rcases db_update_fst_cases w s
              { TaskService.applyUpdate ex u with updated_at := now } with h' | h' | h' <;>
            · simp only [h', Except.map] at h
              cases h
  · intro h
    rw [update_task_eq_of_get_error (get_task_by_id_notFound_iff.mpr h)]

theorem delete_task_notFound_iff {now : Nat} {w : Bool} {i : String} {s : Store} :
    (TaskService.delete_task now w i s).1 = .error .notFound ↔ ∀ t ∈ s, t.id ≠ i := by
  constructor
  · intro h
    cases hg : TaskService.get_task_by_id now i s with
    | error e =>
      rw [delete_task_eq_of_get_error hg] at h
      cases h
      exact get_task_by_id_notFound_iff.mp hg
    | ok t =>
      exfalso
      rw [delete_task_eq_of_get_ok hg] at h
      unfold TaskRepository.delete at h
      rcases db_delete_fst_cases w s i with h' | h' | h' <;>
        · rw [h'] at h
          cases h
  · intro h
    rw [delete_task_eq_of_get_error (get_task_by_id_notFound_iff.mpr h)]

theorem update_task_ok_inv {now : Nat} {w : Bool} {i : String} {u : TaskUpdate}
    {s : Store} {t' : Task} {s' : Store}
    (h : TaskService.update_task now w i u s = (.ok t', s')) :
    ∃ ex, TaskService.get_task_by_id now i s = .ok ex ∧
      t' = { TaskService.applyUpdate ex u with updated_at := now } := by
  cases hg : TaskService.get_task_by_id now i s with
  | error e =>
    rw [update_task_eq_of_get_error hg] at h
    simp at h
  | ok ex =>
    refine ⟨ex, rfl, ?_⟩
    cases htc : TaskService.titleCheck now i u s with
    | error e =>
      rw [update_task_eq_of_titleCheck_error hg htc] at h
      simp at h
    | ok v1 =>
      cases v1
      cases hdc : TaskService.dueCheck now u with
      | error e =>
        rw [update_task_eq_of_dueCheck_error hg htc hdc] at h
        simp at h
      | ok v2 =>
        cases v2
        rw [update_task_eq_of_checks hg htc hdc] at h
        unfold TaskRepository.update at h
        rcases db_update_fst_cases w s
            { TaskService.applyUpdate ex u with updated_at := now } with h' | h' | h'
        · simp only [h', Except.map] at h
          injection h with h1 h2
          injection h1 with h3
          exact h3.symm
        · simp only [h', Except.map] at h
          injection h with h1 h2
          injection h1 with h3
          exact h3.symm
        · simp only [h', Except.map] at h
          injection h with h1 h2
          cases h1

end TaskManager

namespace TaskManager

/-! ### Atomicity helper lemmas -/

theorem repo_update_eq (now : Nat) (w : Bool) (t : Task) (s : Store) :
    TaskRepository.update now w t s =
      ((Database.update w s { t with updated_at := now }).1.map
          (fun _ => ({ t with updated_at := now } : Task)),
        (Database.update w s { t with updated_at := now }).2) := rfl

theorem save_eq (w : Bool) (t : Task) (s : Store) :
    TaskRepository.save w t s =
      ((if w then .ok t else .error .ioError), upsert s t) := by
  cases w <;> rfl

theorem save_fst_error {w : Bool} {t : Task} {s : Store} {e : Err}
    (h : (TaskRepository.save w t s).1 = .error e) : e = .ioError := by
  cases w with
  | false =>
    have h2 : (Except.error Err.ioError : Except Err Task) = .error e := h
    injection h2 with h3
    exact h3.symm
  | true =>
    have h2 : (Except.ok t : Except Err Task) = .error e := h
    cases h2

theorem create_task_error_snd {now : Nat} {fid : String} {w : Bool} {d : TaskCreate}
    {s : Store} {e : Err} (h : (TaskService.create_task now fid w d s).1 = .error e)
    (hne : e ≠ .ioError) : (TaskService.create_task now fid w d s).2 = s := by
  cases hft : TaskRepository.find_by_title now s d.title with
  | error e' => rw [create_task_eq_of_error hft]
  | ok r =>
    cases r with
    | some t => rw [create_task_eq_of_some hft]
    | none =>
      rw [create_task_eq_of_none hft] at h ⊢
      cases hdu : d.due_date with
      | none =>
        rw [hdu] at h
        exact absurd (save_fst_error h) hne
      | some dd =>
        rw [hdu] at h
        by_cases hlt : dd < now
        · show (if dd < now then ((Except.error Err.validation : Except Err Task), s)
              else TaskRepository.save w (TaskService.mkTask fid d now) s).2 = s
          rw [if_pos hlt]
        · have h2 : (if dd < now then ((Except.error Err.validation : Except Err Task), s)
              else TaskRepository.save w (TaskService.mkTask fid d now) s).1 = .error e := h
          rw [if_neg hlt] at h2
          exact absurd (save_fst_error h2) hne

theorem update_task_error_snd {now : Nat} {w : Bool} {i : String} {u : TaskUpdate}
    {s : Store} {e : Err} (h : (TaskService.update_task now w i u s).1 = .error e)
    (hne : e ≠ .ioError) : (TaskService.update_task now w i u s).2 = s := by
  cases hg : TaskService.get_task_by_id now i s with
  | error e' => rw [update_task_eq_of_get_error hg]
  | ok ex =>
    cases htc : TaskService.titleCheck now i u s with
    | error e' => rw [update_task_eq_of_titleCheck_error hg htc]
    | ok v1 =>
      cases v1
      cases hdc : TaskService.dueCheck now u with
      | error e' => rw [update_task_eq_of_dueCheck_error hg htc hdc]
      | ok v2 =>
        cases v2
        exfalso
        rw [update_task_eq_of_checks hg htc hdc] at h
        unfold TaskRepository.update at h
        rcases db_update_fst_cases w s
            { TaskService.applyUpdate ex u with updated_at := now } with h' | h' | h'
        · simp only [h', Except.map] at h
          cases h
        · simp only [h', Except.map] at h
          cases h
        · simp only [h', Except.map] at h
          injection h with h3
          exact hne h3.symm

theorem delete_task_error_snd {now : Nat} {w : Bool} {i : String}
    {s : Store} {e : Err} (h : (TaskService.delete_task now w i s).1 = .error e)
    (hne : e ≠ .ioError) : (TaskService.delete_task now w i s).2 = s := by
  cases hg : TaskService.get_task_by_id now i s with
  | error e' => rw [delete_task_eq_of_get_error hg]
  | ok t =>
    exfalso
    rw [delete_task_eq_of_get_ok hg] at h
    unfold TaskRepository.delete at h
    rcases db_delete_fst_cases w s i with h' | h' | h'
    · rw [h'] at h; cases h
    · rw [h'] at h; cases h
    · rw [h'] at h
      injection h with h3
      exact hne h3.symm

deriving instance DecidableEq for Except

/-- A concrete task used by witnesses. -/
def wTask (i ti : String) (c : Nat) : Task :=
  { id := i, title := ti, description := none, priority := .medium,
    status := .pending, due_date := none, created_at := c, updated_at := c }

/-- Claim C9: for an id absent from the Store, the Repository's `update` is
silently dropped: no error, the collection unchanged, and the task (stamped
with `updated_at := now`) still returned; the Database's `update`/`delete`
return `True` and take effect for a present id, and return `False` without
modification for an absent id. -/
theorem repository_update_semantics :
    (∀ (now : Nat) (w : Bool) (t : Task) (s : Store), (∀ v ∈ s, v.id ≠ t.id) →
      TaskRepository.update now w t s = (.ok { t with updated_at := now }, s)) ∧
    (∀ (t : Task) (s : Store) (v : Task), v ∈ s → v.id = t.id →
      (Database.update true s t).1 = .ok true ∧
      (Database.update true s t).2.find? (fun x => x.id == t.id) = some t) ∧
    (∀ (w : Bool) (t : Task) (s : Store), (∀ v ∈ s, v.id ≠ t.id) →
      Database.update w s t = (.ok false, s)) ∧
    (∀ (s : Store) (i : String) (v : Task), v ∈ s → v.id = i →
      (Database.delete true s i).1 = .ok true) ∧
    (∀ (w : Bool) (s : Store) (i : String), (∀ v ∈ s, v.id ≠ i) →
      Database.delete w s i = (.ok false, s)) := by
  refine ⟨?_, ?_, ?_, ?_, ?_⟩
  · intro now w t s h
    rw [repo_update_eq,
      db_update_absent (t := { t with updated_at := now }) (fun v hv => h v hv)]
    rfl
  · intro t s v hv hid
    refine ⟨?_, db_update_find hv hid⟩
    rw [db_update_fst_present hv hid]
    rfl
  · intro w t s h
    exact db_update_absent h
  · intro s i v hv hid
    rw [db_delete_fst_present hv hid]
    rfl
  · intro w s i h
    exact db_delete_absent h

/-- Witness for C9 at concrete inputs. -/
theorem repository_update_semantics_witness :
    TaskRepository.update 5 true (wTask "a" "A" 1) [] =
      (.ok { wTask "a" "A" 1 with updated_at := 5 }, []) ∧
    (Database.update true [wTask "a" "A" 1] { wTask "a" "B" 1 with updated_at := 2 }).1 =
      .ok true ∧
    Database.update true [wTask "a" "A" 1] (wTask "b" "B" 1) =
      (.ok false, [wTask "a" "A" 1]) ∧
    (Database.delete true [wTask "a" "A" 1] "a").1 = .ok true ∧
    Database.delete true [wTask "a" "A" 1] "b" = (.ok false, [wTask "a" "A" 1]) :=
  ⟨repository_update_semantics.1 5 true (wTask "a" "A" 1) [] (by simp),
   (repository_update_semantics.2.1 { wTask "a" "B" 1 with updated_at := 2 }
     [wTask "a" "A" 1] (wTask "a" "A" 1) (by simp) (by decide)).1,
   repository_update_semantics.2.2.1 true (wTask "b" "B" 1) [wTask "a" "A" 1] (by decide),
   repository_update_semantics.2.2.2.1 [wTask "a" "A" 1] "a" (wTask "a" "A" 1)
     (by simp) (by decide),
   repository_update_semantics.2.2.2.2 true [wTask "a" "A" 1] "b" (by decide)⟩

/-- Claim C8, amended: a service call failing with NotFound, Duplicate,
Validation or a read-time `ValidationError` leaves the collection exactly as
it was; but when the backing-file write fails, the error propagates while the
in-memory collection retains the mutation (the create below mutates the
store even though it reports the write failure). -/
theorem atomicity_spec :
    (∀ (now : Nat) (fid : String) (w : Bool) (d : TaskCreate) (s : Store) (e : Err),
      (TaskService.create_task now fid w d s).1 = .error e → e ≠ .ioError →
      (TaskService.create_task now fid w d s).2 = s) ∧
    (∀ (now : Nat) (w : Bool) (i : String) (u : TaskUpdate) (s : Store) (e : Err),
      (TaskService.update_task now w i u s).1 = .error e → e ≠ .ioError →
      (TaskService.update_task now w i u s).2 = s) ∧
    (∀ (now : Nat) (w : Bool) (i : String) (s : Store) (e : Err),
      (TaskService.delete_task now w i s).1 = .error e → e ≠ .ioError →
      (TaskService.delete_task now w i s).2 = s) ∧
    (∀ (now : Nat) (w : Bool) (i : String) (s : Store) (e : Err),
      (TaskService.complete_task now w i s).1 = .error e → e ≠ .ioError →
      (TaskService.complete_task now w i s).2 = s) ∧
    (∀ (now : Nat) (fid : String) (d : TaskCreate) (s : Store),
      StoreReadable now s →
      (∀ t ∈ s, (t.title.pyStrip).pyLower ≠ d.title.pyLower) →
      (∀ dd, d.due_date = some dd → ¬ dd < now) →
      TaskService.create_task now fid false d s =
        (.error .ioError, upsert s (TaskService.mkTask fid d now))) := by
  refine ⟨fun now fid w d s e h hne => create_task_error_snd h hne,
    fun now w i u s e h hne => update_task_error_snd h hne,
    fun now w i s e h hne => delete_task_error_snd h hne,
    fun now w i s e h hne => update_task_error_snd h hne,
    ?_⟩
  intro now fid d s hr hti hdu
  rw [create_task_eq_of_none (find_by_title_eq_none hr hti)]
  cases hdd : d.due_date with
  | none =>
    rw [save_eq]
    rfl
  | some dd =>
    show (if dd < now then ((Except.error Err.validation : Except Err Task), s)
        else TaskRepository.save false (TaskService.mkTask fid d now) s) =
      (.error .ioError, upsert s (TaskService.mkTask fid d now))
    rw [if_neg (hdu dd hdd), save_eq]
    rfl

/-- Witness for the atomic conjuncts of C8 at concrete inputs. -/
theorem atomicity_spec_witness :
    (TaskService.create_task 3 "b" true { title := "A" } [wTask "a" "A" 1]).1 =
      .error .duplicate ∧
    (TaskService.create_task 3 "b" true { title := "A" } [wTask "a" "A" 1]).2 =
      [wTask "a" "A" 1] ∧
    (TaskService.delete_task 3 true "z" [wTask "a" "A" 1]).1 = .error .notFound ∧
    (TaskService.delete_task 3 true "z" [wTask "a" "A" 1]).2 = [wTask "a" "A" 1] := by
  refine ⟨by decide, ?_, by decide, ?_⟩
  · exact atomicity_spec.1 3 "b" true { title := "A" } [wTask "a" "A" 1] .duplicate
      (by decide) (by decide)
  · exact atomicity_spec.2.2.1 3 true "z" [wTask "a" "A" 1] .notFound (by decide) (by decide)

/-- Counterexample to C8 as stated: a failing backing-file write propagates
an error, yet the in-memory task collection is not what it was before the
call — the inserted task is retained. -/
theorem ioError_retains_mutation_cex :
    TaskService.create_task 0 "id1" false { title := "A" } [] =
      (.error .ioError, [TaskService.mkTask "id1" { title := "A" } 0]) ∧
    ([TaskService.mkTask "id1" { title := "A" } 0] : Store) ≠ [] := by
  constructor
  · decide
  · decide

end TaskManager

namespace TaskManager

/-- The patch `{"due_date": null}`: only `due_date` is set, explicitly to
null. -/
def nullDuePatch : TaskUpdate :=
  { due_date := some none }

/-- Claim C10 (amended): for every task the service can read back (its own
stored `due_date`, if any, not earlier than now), `updateTask` with a patch
explicitly setting `due_date` to null succeeds — the past-due-date check is
skipped for a null value — and the resulting task has no `due_date`, even if
the task had one. -/
theorem updateTask_nullDueDate (now : Nat) (i : String) (s : Store) (t0 : Task)
    (hg : TaskService.get_task_by_id now i s = .ok t0) :
    TaskService.update_task now true i nullDuePatch s =
      (.ok { t0 with due_date := none, updated_at := now },
        (Database.update true s { t0 with due_date := none, updated_at := now }).2) ∧
    ({ t0 with due_date := none, updated_at := now } : Task).due_date = none := by
  have htc : TaskService.titleCheck now i nullDuePatch s = .ok () := rfl
  have hdc : TaskService.dueCheck now nullDuePatch = .ok () := rfl
  rw [update_task_eq_of_checks hg htc hdc, repo_update_eq]
  obtain ⟨u0, hmem, hid, htr, hread⟩ := get_task_by_id_ok_inv hg
  have hid' : u0.id = ({ t0 with due_date := none, updated_at := now } : Task).id := by
    rw [htr]
    exact hid.symm ▸ rfl
  constructor
  · refine Prod.ext ?_ rfl
    show (Database.update true s { t0 with due_date := none, updated_at := now }).1.map
        (fun _ => ({ t0 with due_date := none, updated_at := now } : Task)) = _
    rw [db_update_fst_present hmem hid']
    rfl
  · rfl

/-- Witness for C10: clearing a (future) due date at a concrete input. -/
theorem updateTask_nullDueDate_witness :
    TaskService.update_task 5 true "a" nullDuePatch
        [{ wTask "a" "A" 1 with due_date := some 10 }] =
      (.ok { wTask "a" "A" 1 with due_date := none, updated_at := 5 },
        [{ wTask "a" "A" 1 with due_date := none, updated_at := 5 }]) ∧
    ({ wTask "a" "A" 1 with due_date := none, updated_at := 5 } : Task).due_date = none := by
  have h := updateTask_nullDueDate 5 "a" [{ wTask "a" "A" 1 with due_date := some 10 }]
    { wTask "a" "A" 1 with due_date := some 10 } (by decide)
  exact ⟨h.1, h.2⟩

/-- Counterexample to C10 as stated: a task whose stored due date has already
passed cannot be updated at all — even the patch that would clear the due
date fails with a read-time `ValidationError` rather than succeeding. -/
theorem updateTask_nullDueDate_cex :
    (TaskService.update_task 10 true "a" nullDuePatch
        [{ wTask "a" "A" 1 with due_date := some 5 }]).1 = .error .parseError := by
  decide

/-- Claim C3: a successful `updateTask` applies exactly the fields explicitly
present in the patch and leaves every other field of the task unchanged
(`created_at` and `id` included), stamping `updated_at` with the current
time; in particular a successful `completeTask` (patch `{status: completed}`)
leaves `title`, `description`, `priority` and `due_date` unchanged and, when
the clock has advanced past the task's previous `updated_at`, sets
`updated_at` strictly greater than it. -/
theorem updateTask_frame :
    (∀ (now : Nat) (w : Bool) (i : String) (u : TaskUpdate) (s : Store)
        (t' : Task) (s' : Store) (t0 : Task),
      TaskService.update_task now w i u s = (.ok t', s') →
      TaskService.get_task_by_id now i s = .ok t0 →
      (u.title = none → t'.title = t0.title) ∧
      (∀ x, u.title = some x → t'.title = x) ∧
      (u.description = none → t'.description = t0.description) ∧
      (∀ x, u.description = some x → t'.description = x) ∧
      (u.priority = none → t'.priority = t0.priority) ∧
      (∀ x, u.priority = some x → t'.priority = x) ∧
      (u.status = none → t'.status = t0.status) ∧
      (∀ x, u.status = some x → t'.status = x) ∧
      (u.due_date = none → t'.due_date = t0.due_date) ∧
      (∀ x, u.due_date = some x → t'.due_date = x) ∧
      t'.id = t0.id ∧ t'.created_at = t0.created_at ∧ t'.updated_at = now) ∧
    (∀ (now : Nat) (w : Bool) (i : String) (s : Store)
        (t' : Task) (s' : Store) (t0 : Task),
      TaskService.complete_task now w i s = (.ok t', s') →
      TaskService.get_task_by_id now i s = .ok t0 →
      t'.title = t0.title ∧ t'.description = t0.description ∧
      t'.priority = t0.priority ∧ t'.due_date = t0.due_date ∧
      t'.status = .completed ∧ t'.created_at = t0.created_at ∧
      (t0.updated_at < now → t0.updated_at < t'.updated_at)) := by
  constructor
  · intro now w i u s t' s' t0 h hg
    obtain ⟨ex, hg', ht'⟩ := update_task_ok_inv h
    rw [hg] at hg'
    injection hg' with hex
    subst hex
    subst ht'
    refine ⟨fun hut => ?_, fun x hut => ?_, fun hud => ?_, fun x hud => ?_,
      fun hup => ?_, fun x hup => ?_, fun hus => ?_, fun x hus => ?_,
      fun hdd => ?_, fun x hdd => ?_, rfl, rfl, rfl⟩
    · show u.title.getD t0.title = t0.title
      rw [hut]
      rfl
    · show u.title.getD t0.title = x
      rw [hut]
      rfl
    · show u.description.getD t0.description = t0.description
      rw [hud]
      rfl
    · show u.description.getD t0.description = x
      rw [hud]
      rfl
    · show u.priority.getD t0.priority = t0.priority
      rw [hup]
      rfl
    · show u.priority.getD t0.priority = x
      rw [hup]
      rfl
    · show u.status.getD t0.status = t0.status
      rw [hus]
      rfl
    · show u.status.getD t0.status = x
      rw [hus]
      rfl
    · show u.due_date.getD t0.due_date = t0.due_date
      rw [hdd]
      rfl
    · show u.due_date.getD t0.due_date = x
      rw [hdd]
      rfl
  · intro now w i s t' s' t0 h hg
    obtain ⟨ex, hg', ht'⟩ := update_task_ok_inv h
    rw [hg] at hg'
    injection hg' with hex
    subst hex
    subst ht'
    exact ⟨rfl, rfl, rfl, rfl, rfl, rfl, fun hlt => hlt⟩

/-- Witness for C3 at concrete inputs: a title-only update keeps the status,
and a `completeTask` keeps the title and strictly bumps `updated_at`. -/
theorem updateTask_frame_witness :
    ({ wTask "a" "A" 1 with title := "B", updated_at := 5 } : Task).status =
      (wTask "a" "A" 1).status ∧
    ({ wTask "a" "A" 1 with status := TaskStatus.completed, updated_at := 5 } : Task).title =
      (wTask "a" "A" 1).title ∧
    (wTask "a" "A" 1 : Task).updated_at <
      ({ wTask "a" "A" 1 with status := TaskStatus.completed, updated_at := 5 } : Task).updated_at := by
  have h1 := updateTask_frame.1 5 true "a" { title := some "B" } [wTask "a" "A" 1]
    { wTask "a" "A" 1 with title := "B", updated_at := 5 }
    [{ wTask "a" "A" 1 with title := "B", updated_at := 5 }] (wTask "a" "A" 1)
    (by decide) (by decide)
  have h2 := updateTask_frame.2 5 true "a" [wTask "a" "A" 1]
    { wTask "a" "A" 1 with status := TaskStatus.completed, updated_at := 5 }
    [{ wTask "a" "A" 1 with status := TaskStatus.completed, updated_at := 5 }]
    (wTask "a" "A" 1) (by decide) (by decide)
  exact ⟨h1.2.2.2.2.2.2.1 rfl, h2.1, h2.2.2.2.2.2.2 (by decide)⟩

end TaskManager

namespace TaskManager

instance decReadableTask (now : Nat) (t : Task) : Decidable (ReadableTask now t) :=
  match ht : t.due_date with
  | none =>
    decidable_of_iff (t.title.pyStrip ≠ "") (by
      unfold ReadableTask
      constructor
      · intro h1
        refine ⟨h1, fun d hd => ?_⟩
        rw [ht] at hd
        cases hd
      · intro h
        exact h.1)
  | some d0 =>
    decidable_of_iff (t.title.pyStrip ≠ "" ∧ ¬ d0 < now) (by
      unfold ReadableTask
      constructor
      · intro h
        refine ⟨h.1, fun d hd => ?_⟩
        rw [ht] at hd
        injection hd with h'
        subst h'
        exact h.2
      · intro h
        exact ⟨h.1, h.2 d0 ht⟩)

instance (s : Store) : Decidable (IdsNodup s) :=
  decidable_of_iff ((s.map TaskG.id).Nodup) Iff.rfl

instance (now : Nat) (s : Store) : Decidable (StoreReadable now s) :=
  decidable_of_iff (∀ t ∈ s, ReadableTask now t) Iff.rfl

instance (s : Store) : Decidable (TitlesStored s) :=
  decidable_of_iff (∀ t ∈ s, t.title.pyStrip = t.title ∧ t.title ≠ "") Iff.rfl

instance (s : Store) : Decidable (TitlesDistinct s) :=
  decidable_of_iff
    (s.Pairwise (fun a b => a.title.pyLower ≠ b.title.pyLower))
    (by unfold TitlesDistinct; exact Iff.rfl)

/-- Claim C4 (amended): `getTaskById`, `updateTask`, `deleteTask` and
`completeTask` fail with NotFound exactly when the id is absent from the
store; when the id is present and that task is deserializable at call time,
`deleteTask` removes it and returns true (assuming the file write succeeds),
after which `getTaskById` on the id fails with NotFound and a second
`deleteTask` fails with NotFound.  (The store is keyed by id, so ids are
assumed pairwise distinct.) -/
theorem notFound_semantics :
    (∀ (now : Nat) (i : String) (s : Store),
      TaskService.get_task_by_id now i s = .error .notFound ↔ ∀ t ∈ s, t.id ≠ i) ∧
    (∀ (now : Nat) (w : Bool) (i : String) (u : TaskUpdate) (s : Store),
      (TaskService.update_task now w i u s).1 = .error .notFound ↔ ∀ t ∈ s, t.id ≠ i) ∧
    (∀ (now : Nat) (w : Bool) (i : String) (s : Store),
      (TaskService.delete_task now w i s).1 = .error .notFound ↔ ∀ t ∈ s, t.id ≠ i) ∧
    (∀ (now : Nat) (w : Bool) (i : String) (s : Store),
      (TaskService.complete_task now w i s).1 = .error .notFound ↔ ∀ t ∈ s, t.id ≠ i) ∧
    (∀ (now : Nat) (i : String) (s : Store) (t0 : Task),
      IdsNodup s → t0 ∈ s → t0.id = i → ReadableTask now t0 →
      TaskService.delete_task now true i s = (.ok true, (Database.delete true s i).2) ∧
      (∀ x ∈ (Database.delete true s i).2, x.id ≠ i) ∧
      (∀ now2 : Nat,
        TaskService.get_task_by_id now2 i ((Database.delete true s i).2) = .error .notFound) ∧
      (∀ (now2 : Nat) (w2 : Bool),
        (TaskService.delete_task now2 w2 i ((Database.delete true s i).2)).1 =
          .error .notFound)) := by
  refine ⟨fun now i s => get_task_by_id_notFound_iff,
    fun now w i u s => update_task_notFound_iff,
    fun now w i s => delete_task_notFound_iff,
    fun now w i s => update_task_notFound_iff,
    ?_⟩
  intro now i s t0 hids hmem hid hr
  have hget := get_task_by_id_eq_of_mem hids hmem hid hr
  have habsent := db_delete_id_absent (w := true) (i := i) hids
  refine ⟨?_, habsent, fun now2 => get_task_by_id_notFound_iff.mpr habsent,
    fun now2 w2 => delete_task_notFound_iff.mpr habsent⟩
  rw [delete_task_eq_of_get_ok hget]
  unfold TaskRepository.delete
  refine Prod.ext ?_ rfl
  rw [db_delete_fst_present hmem hid]
  rfl

/-- Witness for C4 at concrete inputs. -/
theorem notFound_semantics_witness :
    TaskService.get_task_by_id 5 "z" [wTask "a" "A" 1] = .error .notFound ∧
    TaskService.delete_task 5 true "a" [wTask "a" "A" 1] = (.ok true, []) ∧
    TaskService.get_task_by_id 6 "a" ([] : Store) = .error .notFound ∧
    (TaskService.delete_task 6 true "a" ([] : Store)).1 = .error .notFound := by
  have h5 := notFound_semantics.2.2.2.2 5 "a" [wTask "a" "A" 1] (wTask "a" "A" 1)
    (by decide) (by simp) (by decide) (by decide)
  exact ⟨(notFound_semantics.1 5 "z" [wTask "a" "A" 1]).mpr (by decide),
    h5.1, h5.2.2.1 6, h5.2.2.2 6 true⟩

/-- Counterexample to C4 as stated: the id `"a"` exists, yet `deleteTask`
does not delete it and return true — the stored task's due date has passed,
so the existence check itself raises a `ValidationError`, and the store is
left with the task still in it. -/
theorem deleteTask_unreadable_cex :
    TaskService.delete_task 10 true "a" [{ wTask "a" "A" 1 with due_date := some 5 }] =
      (.error .parseError, [{ wTask "a" "A" 1 with due_date := some 5 }]) := by
  decide

end TaskManager

namespace TaskManager

instance (d : TaskCreate) : Decidable d.Valid :=
  decidable_of_iff (d.title.pyStrip = d.title ∧ d.title ≠ "") Iff.rfl

/-- Claim C1 (amended): provided the request passed pydantic's boundary
validation and every stored task deserializes at call time (no stored due
date already in the past), `createTask` fails with Duplicate when some stored
task's title matches the new title case-insensitively — this check runs
before any other, so it wins even over a bad due date — otherwise fails with
Validation when the due date is present and strictly earlier than now, and
otherwise (with a fresh uuid and a successful file write) persists and
returns a task carrying exactly the input fields, a fresh id, and
`created_at = updated_at = now`, appended to the store. -/
theorem createTask_spec :
    ∀ (now : Nat) (fid : String) (d : TaskCreate) (s : Store),
      d.Valid → StoreReadable now s →
      ((∃ t ∈ s, (t.title.pyStrip).pyLower = d.title.pyLower) →
        ∀ w, TaskService.create_task now fid w d s = (.error .duplicate, s)) ∧
      ((∀ t ∈ s, (t.title.pyStrip).pyLower ≠ d.title.pyLower) →
        ∀ dd, d.due_date = some dd → dd < now →
        ∀ w, TaskService.create_task now fid w d s = (.error .validation, s)) ∧
      ((∀ t ∈ s, (t.title.pyStrip).pyLower ≠ d.title.pyLower) →
        (∀ dd, d.due_date = some dd → ¬ dd < now) →
        (∀ t ∈ s, t.id ≠ fid) →
        TaskService.create_task now fid true d s =
          (.ok (TaskService.mkTask fid d now), s ++ [TaskService.mkTask fid d now]) ∧
        (TaskService.mkTask fid d now).id = fid ∧
        (TaskService.mkTask fid d now).title = d.title ∧
        (TaskService.mkTask fid d now).description = d.description ∧
        (TaskService.mkTask fid d now).priority = d.priority ∧
        (TaskService.mkTask fid d now).status = d.status ∧
        (TaskService.mkTask fid d now).due_date = d.due_date ∧
        (TaskService.mkTask fid d now).created_at = now ∧
        (TaskService.mkTask fid d now).updated_at = now) := by
  intro now fid d s hd hr
  refine ⟨?_, ?_, ?_⟩
  · rintro ⟨t, ht, hmatch⟩ w
    obtain ⟨other, hfb⟩ := find_by_title_isSome hr ht hmatch
    exact create_task_eq_of_some hfb
  · intro hnone dd hdd hlt w
    rw [create_task_eq_of_none (find_by_title_eq_none hr hnone), hdd]
    show (if dd < now then ((Except.error Err.validation : Except Err Task), s)
        else TaskRepository.save w (TaskService.mkTask fid d now) s) = (.error .validation, s)
    rw [if_pos hlt]
  · intro hnone hdue hfresh
    refine ⟨?_, rfl, rfl, rfl, rfl, rfl, rfl, rfl, rfl⟩
    rw [create_task_eq_of_none (find_by_title_eq_none hr hnone)]
    have hup : upsert s (TaskService.mkTask fid d now) =
        s ++ [TaskService.mkTask fid d now] :=
      upsert_of_fresh (fun u hu => hfresh u hu)
    cases hdu : d.due_date with
    | none =>
      rw [save_eq, hup]
      rfl
    | some dd =>
      show (if dd < now then ((Except.error Err.validation : Except Err Task), s)
          else TaskRepository.save true (TaskService.mkTask fid d now) s) = _
      rw [if_neg (hdue dd hdu), save_eq, hup]
      rfl

/-- Witness for C1 at concrete inputs: a case-insensitive duplicate, a past
due date, and a successful creation. -/
theorem createTask_spec_witness :
    TaskService.create_task 5 "b" true { title := "FOO" } [wTask "a" "Foo" 1] =
      (.error .duplicate, [wTask "a" "Foo" 1]) ∧
    TaskService.create_task 5 "b" true { title := "B", due_date := some 3 }
        [wTask "a" "Foo" 1] =
      (.error .validation, [wTask "a" "Foo" 1]) ∧
    TaskService.create_task 5 "b" true { title := "B", due_date := some 9 }
        [wTask "a" "Foo" 1] =
      (.ok (TaskService.mkTask "b" { title := "B", due_date := some 9 } 5),
        [wTask "a" "Foo" 1] ++ [TaskService.mkTask "b" { title := "B", due_date := some 9 } 5]) := by
  refine ⟨(createTask_spec 5 "b" { title := "FOO" } [wTask "a" "Foo" 1]
      (by decide) (by decide)).1 ⟨wTask "a" "Foo" 1, by simp, by decide⟩ true,
    (createTask_spec 5 "b" { title := "B", due_date := some 3 } [wTask "a" "Foo" 1]
      (by decide) (by decide)).2.1 (by decide) 3 rfl (by decide) true,
    ((createTask_spec 5 "b" { title := "B", due_date := some 9 } [wTask "a" "Foo" 1]
      (by decide) (by decide)).2.2 (by decide)
      (fun dd hdd => by injection hdd with h; subst h; decide) (by decide)).1⟩

/-- Counterexample to C1 as stated: the store holds a task whose due date has
passed, and a create request whose title matches it case-insensitively does
not fail with Duplicate — the duplicate scan itself raises a read-time
`ValidationError`. -/
theorem createTask_unreadable_store_cex :
    TaskService.create_task 10 "b" true { title := "A" }
        [{ wTask "a" "A" 1 with due_date := some 5 }] =
      (.error .parseError, [{ wTask "a" "A" 1 with due_date := some 5 }]) ∧
    (Except.error Err.parseError : Except Err Task) ≠ .error .duplicate := by
  exact ⟨by decide, by decide⟩

end TaskManager

namespace TaskManager

/-- Claim C2: in every store reachable through the service's operations
(create, update, complete, delete — with boundary-validated payloads,
arbitrary clocks, uuids and write outcomes), no two tasks with distinct ids
have case-insensitively equal titles; the enforcing rejections: `createTask`
fails with Duplicate when the title scan finds any task, and `updateTask`
fails with Duplicate when the patched title's scan finds a task with a
different id. -/
theorem title_uniqueness_invariant :
    (∀ s : Store, Reachable s →
      ∀ t1 ∈ s, ∀ t2 ∈ s, t1.id ≠ t2.id → t1.title.pyLower ≠ t2.title.pyLower) ∧
    (∀ (now : Nat) (fid : String) (w : Bool) (d : TaskCreate) (s : Store) (t : Task),
      TaskRepository.find_by_title now s d.title = .ok (some t) →
      TaskService.create_task now fid w d s = (.error .duplicate, s)) ∧
    (∀ (now : Nat) (w : Bool) (i : String) (u : TaskUpdate) (s : Store) (x : String)
        (ex other : Task),
      u.title = some x →
      TaskService.get_task_by_id now i s = .ok ex →
      TaskRepository.find_by_title now s x = .ok (some other) →
      other.id ≠ i →
      TaskService.update_task now w i u s = (.error .duplicate, s)) := by
  refine ⟨?_, ?_, ?_⟩
  · intro s hreach t1 h1 t2 h2 hne hc
    have hinv := reachable_inv hreach
    exact hne (congrArg TaskG.id (titlesDistinct_elem hinv.2.2 t1 h1 t2 h2 hc))
  · intro now fid w d s t hfb
    exact create_task_eq_of_some hfb
  · intro now w i u s x ex other hut hg hfb hne
    have htc : TaskService.titleCheck now i u s = .error .duplicate := by
      unfold TaskService.titleCheck
      rw [hut]
      show (match TaskRepository.find_by_title now s x with
            | Except.error e => (Except.error e : Except Err Unit)
            | Except.ok (some other) =>
              if other.id = i then Except.ok () else Except.error Err.duplicate
            | Except.ok none => Except.ok ()) = Except.error Err.duplicate
      rw [hfb]
      show (if other.id = i then (Except.ok () : Except Err Unit)
            else Except.error Err.duplicate) = Except.error Err.duplicate
      rw [if_neg hne]
    exact update_task_eq_of_titleCheck_error hg htc

/-- Witness for C2: a store reached by two creates has case-insensitively
distinct titles, and both rejection paths fire at concrete inputs. -/
theorem title_uniqueness_invariant_witness :
    (TaskService.mkTask "id1" { title := "A" } 0).title.pyLower ≠
      (TaskService.mkTask "id2" { title := "B" } 1).title.pyLower ∧
    TaskService.create_task 2 "id3" true { title := "a" }
        [TaskService.mkTask "id1" { title := "A" } 0] =
      (.error .duplicate, [TaskService.mkTask "id1" { title := "A" } 0]) ∧
    TaskService.update_task 2 true "id2" { title := some "a" }
        [TaskService.mkTask "id1" { title := "A" } 0, TaskService.mkTask "id2" { title := "B" } 1] =
      (.error .duplicate,
        [TaskService.mkTask "id1" { title := "A" } 0, TaskService.mkTask "id2" { title := "B" } 1]) := by
  have hreach :
      Reachable (TaskService.create_task 1 "id2" true { title := "B" }
        (TaskService.create_task 0 "id1" true { title := "A" } []).2).2 :=
    Relation.ReflTransGen.tail
      (Relation.ReflTransGen.single
        (SStep.create 0 "id1" true { title := "A" } [] (by decide)))
      (SStep.create 1 "id2" true { title := "B" }
        (TaskService.create_task 0 "id1" true { title := "A" } []).2 (by decide))
  refine ⟨?_, ?_, ?_⟩
  · exact title_uniqueness_invariant.1 _ hreach
      (TaskService.mkTask "id1" { title := "A" } 0) (by decide)
      (TaskService.mkTask "id2" { title := "B" } 1) (by decide) (by decide)
  · exact title_uniqueness_invariant.2.1 2 "id3" true { title := "a" }
      [TaskService.mkTask "id1" { title := "A" } 0]
      (TaskService.mkTask "id1" { title := "A" } 0) (by decide)
  · exact title_uniqueness_invariant.2.2 2 true "id2" { title := some "a" }
      [TaskService.mkTask "id1" { title := "A" } 0, TaskService.mkTask "id2" { title := "B" } 1]
      "a" (TaskService.mkTask "id2" { title := "B" } 1)
      (TaskService.mkTask "id1" { title := "A" } 0)
      rfl (by decide) (by decide) (by decide)

end TaskManager

namespace TaskManager

/-- Claim C5 (amended): for every store whose tasks all deserialize at call
time (titles stored stripped, as the service maintains, and no stored due
date already past), `getAllTasks` returns exactly the store's tasks sorted
by `created_at` descending, ties keeping the repository's (insertion) order,
and `getTasksByStatus` returns exactly the tasks with the given status,
sorted the same way. -/
theorem getAllTasks_sorted :
    ∀ (now : Nat) (s : Store), TitlesStored s → StoreReadable now s →
      (TaskService.get_all_tasks now s = .ok (sortByCreatedDesc s) ∧
        (sortByCreatedDesc s).Perm s ∧
        (sortByCreatedDesc s).Pairwise CreatedDesc ∧
        (∀ k, (sortByCreatedDesc s).filter (fun t => t.created_at == k) =
          s.filter (fun t => t.created_at == k))) ∧
      (∀ st : TaskStatus,
        TaskService.get_tasks_by_status now st s =
          .ok (sortByCreatedDesc (s.filter (fun t => t.status == st))) ∧
        (sortByCreatedDesc (s.filter (fun t => t.status == st))).Perm
          (s.filter (fun t => t.status == st)) ∧
        (∀ t, t ∈ sortByCreatedDesc (s.filter (fun t => t.status == st)) ↔
          t ∈ s ∧ t.status = st) ∧
        (sortByCreatedDesc (s.filter (fun t => t.status == st))).Pairwise CreatedDesc ∧
        (∀ k, (sortByCreatedDesc (s.filter (fun t => t.status == st))).filter
            (fun t => t.created_at == k) =
          (s.filter (fun t => t.status == st)).filter (fun t => t.created_at == k))) := by
  intro now s hts hr
  constructor
  · refine ⟨?_, sortByCreatedDesc_perm s, sortByCreatedDesc_sorted s,
      sortByCreatedDesc_stable s⟩
    unfold TaskService.get_all_tasks
    rw [find_all_self hts hr]
    rfl
  · intro st
    refine ⟨?_, sortByCreatedDesc_perm _, ?_, sortByCreatedDesc_sorted _,
      sortByCreatedDesc_stable _⟩
    · unfold TaskService.get_tasks_by_status TaskRepository.find_by_status
      rw [find_all_self hts hr]
      rfl
    · intro t
      rw [(sortByCreatedDesc_perm _).mem_iff, List.mem_filter]
      simp

/-- Witness for C5: a concrete three-task store comes back newest-first, and
the status filter keeps only matching tasks. -/
theorem getAllTasks_sorted_witness :
    TaskService.get_all_tasks 5
        [wTask "a" "A" 1, wTask "b" "B" 3, wTask "c" "C" 2] =
      .ok [wTask "b" "B" 3, wTask "c" "C" 2, wTask "a" "A" 1] ∧
    TaskService.get_tasks_by_status 5 TaskStatus.pending
        [wTask "a" "A" 1, { wTask "b" "B" 3 with status := TaskStatus.completed }] =
      .ok [wTask "a" "A" 1] := by
  constructor
  · have h := (getAllTasks_sorted 5 [wTask "a" "A" 1, wTask "b" "B" 3, wTask "c" "C" 2]
      (by decide) (by decide)).1.1
    rw [h]
    decide
  · have h := ((getAllTasks_sorted 5
      [wTask "a" "A" 1, { wTask "b" "B" 3 with status := TaskStatus.completed }]
      (by decide) (by decide)).2 TaskStatus.pending).1
    rw [h]
    decide

/-- Counterexample to C5 as stated: a store containing a task whose due date
has passed makes `getAllTasks` raise a read-time `ValidationError` instead
of returning the sorted tasks. -/
theorem getAllTasks_unreadable_cex :
    TaskService.get_all_tasks 10 [{ wTask "a" "A" 1 with due_date := some 5 }] =
      .error .parseError := by
  decide

/-- Supporting fact for C6 (not itself the claim): on a store that does
deserialize at the read instant, the statistics are the advertised counts —
in particular `overdue` counts tasks whose due date falls strictly before
the later counting instant and whose status is not completed. -/
theorem getStatistics_counts (rnow snow : Nat) (s : Store)
    (hts : TitlesStored s) (hr : StoreReadable rnow s) :
    TaskService.get_statistics rnow snow s =
      .ok (s.foldl (statsStep snow)
        { total := s.length, by_status := fun _ => 0,
          by_priority := fun _ => 0, overdue := 0 }) ∧
    (s.foldl (statsStep snow)
        { total := s.length, by_status := fun _ => 0,
          by_priority := fun _ => 0, overdue := 0 }).total = s.length ∧
    (∀ x, (s.foldl (statsStep snow)
        { total := s.length, by_status := fun _ => 0,
          by_priority := fun _ => 0, overdue := 0 }).by_status x =
      (s.filter (fun t => t.status == x)).length) ∧
    (∀ p, (s.foldl (statsStep snow)
        { total := s.length, by_status := fun _ => 0,
          by_priority := fun _ => 0, overdue := 0 }).by_priority p =
      (s.filter (fun t => t.priority == p)).length) ∧
    (s.foldl (statsStep snow)
        { total := s.length, by_status := fun _ => 0,
          by_priority := fun _ => 0, overdue := 0 }).overdue =
      (s.filter (isOverdue snow)).length := by
  refine ⟨?_, foldl_stats_total snow s _, fun x => ?_, fun p => ?_, ?_⟩
  · unfold TaskService.get_statistics
    rw [find_all_self hts hr]
    rfl
  · rw [foldl_stats_by_status, List.countP_eq_length_filter]
    simp
  · rw [foldl_stats_by_priority, List.countP_eq_length_filter]
    simp
  · rw [foldl_stats_overdue, List.countP_eq_length_filter]
    simp

/-- Claim C6, the code's actual behavior at the claim's own scenario: a
cancelled task whose due date has passed does not get counted as overdue —
`get_statistics` cannot even read the store, because re-constructing the
stored `Task` re-runs the due-date validator and raises. -/
theorem getStatistics_overdue_crash :
    TaskService.get_statistics 10 10
        [{ wTask "a" "A" 1 with status := TaskStatus.cancelled, due_date := some 5 }] =
      .error .parseError ∧
    isOverdue 10 { wTask "a" "A" 1 with status := TaskStatus.cancelled, due_date := some 5 } =
      true := by
  exact ⟨by rfl, by decide⟩

end TaskManager

namespace TaskManager

instance (dt : DateTime) : Decidable dt.InRange :=
  decidable_of_iff
    (1 ≤ dt.year ∧ dt.year ≤ 9999 ∧ 1 ≤ dt.month ∧ dt.month ≤ 12 ∧ 1 ≤ dt.day ∧
      dt.day ≤ 31 ∧ dt.hour ≤ 23 ∧ dt.minute ≤ 59 ∧ dt.second ≤ 59 ∧
      dt.microsecond ≤ 999999) Iff.rfl

/-- Claim C7 (amended): for every task whose title is stored in its stripped,
non-blank form (as all persisted tasks are) and whose due date, if present,
is not earlier than the time of deserialization, saving via the Repository
(ISO-8601 encoding of the three datetime fields, null due date kept null)
and reading back via `find_by_id` yields a task equal to the original in
every field, timestamps included.  A task whose due date has passed by read
time instead fails deserialization (see the counterexample). -/
theorem roundTrip_spec :
    ∀ (now : DateTime) (t : TaskG DateTime) (rs : List TaskRecord),
      t.created_at.InRange → t.updated_at.InRange →
      (∀ d, t.due_date = some d → d.InRange ∧ dtLt d now = false) →
      t.title.pyStrip = t.title → t.title ≠ "" →
      find_by_idRecord now (saveRecord rs t) t.id = some (some t) := by
  intro now t rs hca hua hdd htr hne
  unfold find_by_idRecord saveRecord
  rw [show (upsertRecord rs (serializeRecord t)).find? (fun r => r.id == t.id) =
      some (serializeRecord t) from find?_upsertRecord rs (serializeRecord t)]
  show (readRecord now (serializeRecord t)).map some = some (some t)
  rw [readRecord_serializeRecord hca hua hdd htr hne]
  rfl

/-- A concrete valid datetime-level task for the C7 witness. -/
def wDTask : TaskG DateTime :=
  { id := "b", title := "Informe anual", description := some "con detalle",
    priority := .high, status := .in_progress,
    due_date := some ⟨2026, 12, 31, 23, 59, 59, 999999⟩,
    created_at := ⟨2025, 1, 2, 3, 4, 5, 6⟩,
    updated_at := ⟨2025, 11, 8, 10, 0, 0, 0⟩ }

/-- Witness for C7: a concrete task with all three datetime fields (one with
microseconds, one without, a due date with full microseconds) survives the
round trip. -/
theorem roundTrip_spec_witness :
    find_by_idRecord ⟨2025, 12, 1, 0, 0, 0, 0⟩ (saveRecord [] wDTask) wDTask.id =
      some (some wDTask) :=
  roundTrip_spec ⟨2025, 12, 1, 0, 0, 0, 0⟩ wDTask [] (by decide) (by decide)
    (fun d hd => by
      injection hd with h
      subst h
      exact ⟨by decide, by decide⟩)
    (by decide) (by decide)

/-- A concrete task whose due date lies in the past relative to read time. -/
def wDTaskPast : TaskG DateTime :=
  { id := "a", title := "X", description := none, priority := .medium, status := .pending,
    due_date := some ⟨2020, 1, 1, 0, 0, 0, 0⟩,
    created_at := ⟨2019, 6, 1, 12, 0, 0, 0⟩, updated_at := ⟨2019, 6, 1, 12, 0, 0, 0⟩ }

/-- Counterexample to C7 as stated: serializing a task whose due date has
since passed and reading it back does not return the task — the re-run
`due_date_must_be_future` validator raises, so `find_by_id` raises instead
of returning it. -/
theorem roundTrip_pastDue_cex :
    find_by_idRecord ⟨2025, 6, 1, 0, 0, 0, 0⟩ (saveRecord [] wDTaskPast) "a" = none ∧
    (none : Option (Option (TaskG DateTime))) ≠ some (some wDTaskPast) := by
  exact ⟨by decide, by decide⟩

end TaskManager
